import Mathlib

/-!
Verification of the Price_monitor_alert monitoring engine.

This file gives a shallow embedding of the repository's monitoring engine:
the alert-deduplication policy, the price extractors, the per-item fetch
bookkeeping, the persistence operations and the scheduler sleep logic, as
implemented in `src/app/dashboard.py`, `src/streamlit_app.py`,
`src/tracker_worker.py` and `src/scripts/tracker.py`.

Conventions of the embedding:
* Python strings are `List Char`; `str.replace`/`re.sub` character filters
  become `List.filter`.
* Python floats (prices, timestamps) are modelled as `ℚ`; `float(s)` is
  `pyFloat`, returning `none` exactly when Python's `float` raises.
* `re.findall` over the concrete numeric patterns of the sources is
  implemented by a deterministic scanner (`scanWith` with one matcher per
  pattern): for these patterns greedy scanning without backtracking agrees
  with Python's leftmost-greedy semantics, because the optional prefixes
  (currency symbol, whitespace) never overlap the mandatory digit/comma core.
  The scanners take an explicit fuel argument; callers pass the input length,
  which is always sufficient since every successful match consumes at least
  one character.
* SQLite tables become Lean lists; an `INSERT` is an append, a `DELETE` a
  filter.  Row ids are `String`s (the sources use uuid4 strings).
* Fallible effects (the Telegram send, the HTTP fetch) enter the model as
  explicit inputs (`sendOk : Bool`, `FetchOutcome`).
-/

/-- Python's `\s` character class, restricted to its ASCII members (the only
whitespace appearing in the modelled inputs). -/
def isPySpace (c : Char) : Bool :=
  c = ' ' || c = '\t' || c = '\n' || c = '\r' || c = '\x0b' || c = '\x0c'

/-- Numeric value of a digit character. -/
def digitVal (c : Char) : ℕ := c.toNat - '0'.toNat

/-- Value of a digit string read in base 10. -/
def digitsValN (l : List Char) : ℕ := l.foldl (fun a c => 10 * a + digitVal c) 0

/-- Value of a digit string read in base 10, as a rational (as done by
Python's `float` on the integral part). -/
def digitsValQ (l : List Char) : ℚ := (digitsValN l : ℚ)

/-- Value of the fractional digit string `fr` of `x.fr`. -/
def fracValQ (l : List Char) : ℚ := digitsValQ l / 10 ^ l.length

/-- Model of Python `float(s)` on the cleaned numeric strings produced by the
extractors (digits and periods): succeeds on at least one digit and at most
one period, i.e. on `"123"`, `"123."`, `".5"`, `"1.5"`; fails (`none`) on
`""`, `"."`, `"1.2.3"` and anything containing another character, exactly as
`float` raises `ValueError` there. -/
def pyFloat (l : List Char) : Option ℚ :=
  let intPart := l.takeWhile Char.isDigit
  let rest := l.dropWhile Char.isDigit
  match rest with
  | [] => if intPart.isEmpty then none else some (digitsValQ intPart)
  | c :: fr =>
      if c = '.' then
        if fr.all Char.isDigit && (!intPart.isEmpty || !fr.isEmpty) then
          some (digitsValQ intPart + fracValQ fr)
        else none
      else none

/-- The character filter `re.sub(r'[^\d.]', '', m)` applied by
`app/dashboard.py` and `scripts/tracker.py` to a raw matched token. -/
def cleanNumTok (l : List Char) : List Char := l.filter (fun c => c.isDigit || c = '.')

/-! ## Alert policy models

The alert decision of each engine variant, as a pure function of the inputs
the Python code reads: the cooldown configuration, the current time `now`,
the extracted price (`none` when extraction failed), the stored target price
and the stored `last_alert_at`.  The Telegram send outcome is the `sendOk`
input. -/

/-- Alert guard of `app/dashboard.py` `fetch_and_analyze` (lines 237-238):
`price is not None and price > 0 and target_price and target_price > 0`
then `price <= target_price and (now - (last_alert_at or 0) > ALERT_COOLDOWN)`.
`last_alert_at` arrives from the DB row and may be NULL, hence `Option ℚ`
with the Python `or 0`. -/
def dashboard_fire (cooldown now : ℚ) (price : Option ℚ) (target : ℚ)
    (lastAlertAt : Option ℚ) : Bool :=
  match price with
  | none => false
  | some p =>
      !(target == 0) && decide (0 < target) && decide (0 < p) &&
        (decide (p ≤ target) && decide (cooldown < now - lastAlertAt.getD 0))

/-- One evaluation of the dashboard alert block (lines 237-247): fires per
`dashboard_fire`; `last_alert_at` is set to `now` only when the send was
confirmed (`if ok:`), otherwise it is left unchanged.  Returns the new
`last_alert_at` and the fire decision. -/
def dashboard_step (cooldown now : ℚ) (price : Option ℚ) (target lastAlertAt : ℚ)
    (sendOk : Bool) : ℚ × Bool :=
  let fired := dashboard_fire cooldown now price target (some lastAlertAt)
  (if fired && sendOk then now else lastAlertAt, fired)

/-- Alert guard of `src/streamlit_app.py` `check_item_logic` (lines 134-135):
`if price and price > 0 and target_price > 0 and price <= target_price:` then
`if (now - last_alert) > ALERT_COOLDOWN:`.  `price` is truthy only when it is
a number other than `0.0`. -/
def streamlit_fire (cooldown now : ℚ) (price : Option ℚ) (target lastAlert : ℚ) : Bool :=
  match price with
  | none => false
  | some p =>
      !(p == 0) && decide (0 < p) && decide (0 < target) &&
        (decide (p ≤ target) && decide (cooldown < now - lastAlert))

/-- One evaluation of `check_item_logic`'s alert block (lines 134-139): the
return value of `send_telegram_message` is discarded by the source, so
`last_alert_at` advances on every fire, whatever `sendOk` is. -/
def streamlit_step (cooldown now : ℚ) (price : Option ℚ) (target lastAlert : ℚ)
    (_sendOk : Bool) : ℚ × Bool :=
  let fired := streamlit_fire cooldown now price target lastAlert
  (if fired then now else lastAlert, fired)

/-- Alert guard of `src/tracker_worker.py` `check_once` (line 95):
`price is not None and price <= (target_price or 0) and
(time.time() - (last_alert_at or 0) > COOLDOWN)`.  Note the absence of any
positivity requirement on the price or the target. -/
def worker_fire (cooldown now : ℚ) (price : Option ℚ) (target lastAlertAt : Option ℚ) : Bool :=
  match price with
  | none => false
  | some p => decide (p ≤ target.getD 0) && decide (cooldown < now - lastAlertAt.getD 0)

/-- The alert condition stated by the spec (§4.4 `Quiet -> Cooldown`): a
concrete positive price, a positive target, price at or below target, and an
elapsed cooldown. -/
def specAlertFire (cooldown now : ℚ) (price : Option ℚ) (target lastAlert : ℚ) : Prop :=
  ∃ p, price = some p ∧ 0 < p ∧ 0 < target ∧ p ≤ target ∧ cooldown < now - lastAlert

/-! ## Poller traces (for the cooldown-separation invariant)

A `PollEvent` is the environment of one evaluation of the dashboard alert
block for a fixed item: the clock value, the extracted price, the target read
from the DB, and whether the Telegram send would succeed. -/

structure PollEvent where
  now : ℚ
  price : Option ℚ
  target : ℚ
  sendOk : Bool
deriving DecidableEq, Repr

/-- Run the dashboard alert block over a sequence of evaluations for one
item, threading `last_alert_at`; returns the fired alerts as
`(fire time, sendOk)` pairs. -/
def dashboard_run_fires (cooldown : ℚ) (lastAlertAt : ℚ) : List PollEvent → List (ℚ × Bool)
  | [] => []
  | e :: es =>
      let r := dashboard_step cooldown e.now e.price e.target lastAlertAt e.sendOk
      if r.2 then (e.now, e.sendOk) :: dashboard_run_fires cooldown r.1 es
      else dashboard_run_fires cooldown r.1 es

/-- The times of the fired alerts whose send was confirmed successful. -/
def dashboard_success_fire_times (cooldown lastAlertAt : ℚ) (es : List PollEvent) : List ℚ :=
  ((dashboard_run_fires cooldown lastAlertAt es).filter (fun x => x.2)).map Prod.fst

/-! ## Scheduler sleep logic -/

/-- Per-tick sleep of `scripts/tracker.py` `poller_loop` (lines 164-166):
`elapsed = time.time() - start_time; sleep_time = max(0, interval - elapsed)`. -/
def scripts_poller_sleep (interval startTime now : ℚ) : ℚ :=
  max 0 (interval - (now - startTime))

/-- Per-tick sleep of `tracker_worker.py` `main` (line 112):
`time.sleep(POLL_DELAY)` — the elapsed tick time is not consulted. -/
def worker_loop_sleep (pollDelay : ℚ) (_elapsed : ℚ) : ℚ := pollDelay

/-- Per-tick sleep of `app/dashboard.py` `start_background_poller` (line 303):
`time.sleep(POLL_INTERVAL)` — the elapsed tick time is not consulted. -/
def dashboard_poller_sleep (pollInterval : ℚ) (_elapsed : ℚ) : ℚ := pollInterval

/-! ## Persistence model -/

/-- A row of the `items` table (dashboard schema). -/
structure ItemRow where
  id : String
  name : List Char
  url : List Char
  targetPrice : ℚ
  lastAlertAt : ℚ
deriving DecidableEq, Repr

/-- A row of the `prices` table: `price` uses the source's `-1` sentinel for
"no price extracted"; `rawText` is the diagnostic column. -/
structure PriceRow where
  itemId : String
  checkedAt : ℚ
  price : ℚ
  rawText : List Char
deriving DecidableEq, Repr

/-- The persistent store: the two tables of `init_db`. -/
structure Store where
  items : List ItemRow
  prices : List PriceRow
deriving DecidableEq, Repr

/-- `SELECT checked_at, price FROM prices WHERE item_id=?` — the price
history of one item, in insertion order. -/
def historyFor (st : Store) (id : String) : List PriceRow :=
  st.prices.filter (fun r => r.itemId == id)

/-- The store mutations performed by the engine and its UI collaborator in
`app/dashboard.py`: add a tracker, append a sample, update the stored name,
update the target, set `last_alert_at`, and the Delete button (lines
410-416), which issues `DELETE FROM items WHERE id = ?` followed by
`DELETE FROM prices WHERE item_id = ?` (the cascade). -/
inductive StoreOp where
  | addItem (it : ItemRow)
  | recordPrice (r : PriceRow)
  | updateName (id : String) (nm : List Char)
  | updateTarget (id : String) (t : ℚ)
  | setLastAlert (id : String) (ts : ℚ)
  | deleteItem (id : String)
deriving DecidableEq, Repr

/-- Apply one dashboard store operation. -/
def applyOp (op : StoreOp) (st : Store) : Store :=
  match op with
  | .addItem it => { st with items := st.items ++ [it] }
  | .recordPrice r => { st with prices := st.prices ++ [r] }
  | .updateName id nm =>
      { st with items := st.items.map (fun it => if it.id == id then { it with name := nm } else it) }
  | .updateTarget id t =>
      { st with items := st.items.map (fun it => if it.id == id then { it with targetPrice := t } else it) }
  | .setLastAlert id ts =>
      { st with items := st.items.map (fun it => if it.id == id then { it with lastAlertAt := ts } else it) }
  | .deleteItem id =>
      { items := st.items.filter (fun it => !(it.id == id)),
        prices := st.prices.filter (fun r => !(r.itemId == id)) }

/-- The Delete button of `src/streamlit_app.py` `main` (lines 234-239): it
issues only `DELETE FROM items WHERE id=?`; the `prices` table is not
touched. -/
def streamlit_delete (id : String) (st : Store) : Store :=
  { st with items := st.items.filter (fun it => !(it.id == id)) }

/-! ## Fetch bookkeeping (rows appended per fetch attempt) -/

/-- Outcome of one HTTP fetch, as observed by the callers of `requests.get`:
a 200 response with a body, a non-2xx status (with the text of the exception
`raise_for_status` would raise), or a network/timeout exception. -/
inductive FetchOutcome where
  | success (body : List Char)
  | httpError (code : ℕ) (msg : List Char)
  | netError (msg : List Char)
deriving DecidableEq, Repr

/-- Whether the fetch attempt failed before a body could be examined. -/
def FetchOutcome.isFailure : FetchOutcome → Bool
  | .success _ => false
  | .httpError _ _ => true
  | .netError _ => true

/-! ## Database-recovery model (startup behaviour on an unreadable store) -/

/-- Abstract state of the SQLite file for the recovery claims: `corrupt`
means every open/query on it raises; the row content is carried along so
that "recreated empty" is expressible. -/
structure DbFile where
  corrupt : Bool
  hasTables : Bool
  items : List ItemRow
  prices : List PriceRow
deriving DecidableEq, Repr

/-- `src/streamlit_app.py` `init_db` (lines 40-63): the whole body is inside
`try: ... except Exception as e: st.error(...)`; on an unreadable store the
error is reported and the function returns with the file untouched, and on a
readable store `CREATE TABLE IF NOT EXISTS` only ensures the schema.
Returns the resulting file and whether the failure branch was taken. -/
def streamlit_init_db (db : DbFile) : DbFile × Bool :=
  if db.corrupt then (db, true) else ({ db with hasTables := true }, false)

/-- `src/tracker_worker.py` `check_once` DB read (lines 74-81): on a failing
`SELECT * FROM items` it prints the error, closes the connection and
returns; the store is untouched and no items are processed.  Returns the
items read (if any) and the resulting file. -/
def worker_check_once_read (db : DbFile) : Option (List ItemRow) × DbFile :=
  if db.corrupt then (none, db) else (some db.items, db)

/-! ## Markup stripping -/

/-- One optional-character consumer (regex `X?`): returns the consumed
prefix and the rest. -/
def stripOptChar (p : Char → Bool) : List Char → List Char × List Char
  | [] => ([], [])
  | c :: cs => if p c then ([c], cs) else ([], c :: cs)

/-- `re.sub(r"<[^>]+>", " ", s)` (dashboard line 141, worker line 50): each
`<` followed by at least one non-`>` character and a closing `>` is
replaced, with everything between, by one space; an unmatched `<` is kept
and scanning resumes after it.  Fuel-driven; `l.length` fuel always
suffices since every step consumes at least one character. -/
def stripTags : ℕ → List Char → List Char
  | 0, l => l
  | _ + 1, [] => []
  | f + 1, c :: cs =>
      if c = '<' then
        if (cs.takeWhile (fun x => !(x = '>'))).isEmpty then '<' :: stripTags f cs
        else
          match cs.dropWhile (fun x => !(x = '>')) with
          | _ :: r => ' ' :: stripTags f r
          | [] => '<' :: stripTags f cs
      else c :: stripTags f cs

/-- Case-insensitive character comparison (regex flag `(?i)`). -/
def charCI (a b : Char) : Bool := a.toLower == b.toLower

/-- Case-insensitive "the second list starts with the first". -/
def startsWithCI : List Char → List Char → Bool
  | [], _ => true
  | _ :: _, [] => false
  | p :: ps, c :: cs => charCI c p && startsWithCI ps cs

/-- Drop up to and including the first case-insensitive occurrence of `pat`;
`none` when there is no occurrence (implements the lazy `.*?pat`). -/
def dropThroughCI (pat : List Char) : ℕ → List Char → Option (List Char)
  | 0, _ => none
  | _ + 1, [] => none
  | f + 1, c :: cs =>
      if startsWithCI pat (c :: cs) then some ((c :: cs).drop pat.length)
      else dropThroughCI pat f cs

/-- The tag name matched by `<(script|style)` at this position, if any. -/
def ssTagAt (cs : List Char) : Option (List Char) :=
  if startsWithCI "script".toList cs then some "script".toList
  else if startsWithCI "style".toList cs then some "style".toList
  else none

/-- `re.sub(r"(?is)<(script|style).*?>.*?</\1>", " ", s)` of
`app/dashboard.py` (line 140): a `<` followed case-insensitively by
`script` or `style`, the lazily shortest run to a `>`, then the lazily
shortest run to the matching closing tag, is replaced by one space; when no
`>` or no closing tag follows, the `<` is kept and scanning resumes after
it.  For this pattern the lazy `.*?>` needs no backtracking: any
closing-tag occurrence lies after the first `>`, because the closing tag
itself contains a `>`. -/
def stripScriptStyle : ℕ → List Char → List Char
  | 0, l => l
  | _ + 1, [] => []
  | f + 1, c :: cs =>
      if c = '<' then
        match ssTagAt cs with
        | some tag =>
            match dropThroughCI ['>'] cs.length (cs.drop tag.length) with
            | some afterGt =>
                match dropThroughCI ('<' :: '/' :: tag ++ ['>']) afterGt.length afterGt with
                | some afterClose => ' ' :: stripScriptStyle f afterClose
                | none => '<' :: stripScriptStyle f cs
            | none => '<' :: stripScriptStyle f cs
        | none => '<' :: stripScriptStyle f cs
      else c :: stripScriptStyle f cs

/-! ## Numeric token scanners -/

/-- Character class `[\d{1,3},]` of the dashboard's primary price pattern:
inside a character class this means literal braces, digits and comma. -/
def dashClass (c : Char) : Bool := c.isDigit || c = '{' || c = '}' || c = ','

/-- Digit-or-comma class `[\d,]`. -/
def digitComma (c : Char) : Bool := c.isDigit || c = ','

/-- The optional decimal suffix `(?:\.\d{1,2})?`: a period is consumed only
when a digit follows, and at most two digits are taken. -/
def fracUpTo2 : List Char → List Char × List Char
  | '.' :: cs =>
      let ds := (cs.takeWhile Char.isDigit).take 2
      if ds.isEmpty then ([], '.' :: cs) else ('.' :: ds, cs.drop ds.length)
  | l => ([], l)

/-- `\.?\d*`: an unconditional optional period, then all following digits. -/
def fracDotStar : List Char → List Char × List Char
  | '.' :: cs => ('.' :: cs.takeWhile Char.isDigit, cs.dropWhile Char.isDigit)
  | l => ([], l)

/-- `\.?\d{0,2}`: an unconditional optional period, then up to two digits. -/
def fracDot02 : List Char → List Char × List Char
  | '.' :: cs =>
      let ds := (cs.takeWhile Char.isDigit).take 2
      ('.' :: ds, cs.drop ds.length)
  | l => ([], l)

/-- One attempted match of the dashboard pattern
`([₹₹]?\s?[\d{1,3},]+(?:\.\d{1,2})?)` (line 144) at the head of `l`:
optional rupee sign, optional whitespace, a nonempty run of `dashClass`
characters, optional decimal suffix.  Returns the matched token and the
rest.  (`₹` is the rupee sign itself, so the leading class is `{₹}`.) -/
def dashMatch1 (l : List Char) : Option (List Char × List Char) :=
  let p1 := stripOptChar (fun c => c = '₹') l
  let p2 := stripOptChar isPySpace p1.2
  let core := p2.2.takeWhile dashClass
  if core.isEmpty then none
  else
    let fr := fracUpTo2 (p2.2.dropWhile dashClass)
    some (p1.1 ++ p2.1 ++ core ++ fr.1, fr.2)

/-- One attempted match of the dashboard fallback pattern
`(\d{1,3}(?:[,\d]{0,})?(?:\.\d{1,2})?)` (line 146): requires a leading
digit; together the first two atoms consume the maximal digit/comma run. -/
def dashMatch2 (l : List Char) : Option (List Char × List Char) :=
  match l with
  | [] => none
  | c :: _ =>
      if c.isDigit then
        let core := l.takeWhile digitComma
        let fr := fracUpTo2 (l.dropWhile digitComma)
        some (core ++ fr.1, fr.2)
      else none

/-- One attempted match of the worker pattern `₹\s?([\d,]+\.?\d*)`
(`tracker_worker.py` line 51): mandatory rupee sign, optional whitespace, a
nonempty digit/comma run, then `\.?\d*`.  The returned token is the capture
group, without the rupee sign and the whitespace. -/
def workerMatch (l : List Char) : Option (List Char × List Char) :=
  match l with
  | [] => none
  | c :: cs =>
      if c = '₹' then
        let p2 := stripOptChar isPySpace cs
        let core := p2.2.takeWhile digitComma
        if core.isEmpty then none
        else
          let fr := fracDotStar (p2.2.dropWhile digitComma)
          some (core ++ fr.1, fr.2)
      else none

/-- Currency class `[₹$EUR€£]` of `scripts/tracker.py`'s `PRICE_RE`: the
characters rupee, dollar, `E`, `U`, `R`, euro and pound. -/
def scrCurrency (c : Char) : Bool :=
  c = '₹' || c = '$' || c = 'E' || c = 'U' || c = 'R' || c = '€' || c = '£'

/-- One attempted match of `PRICE_RE` `([₹$EUR€£]?\s?[\d,]+\.?\d{0,2})`
(`scripts/tracker.py` line 90). -/
def scriptsMatch (l : List Char) : Option (List Char × List Char) :=
  let p1 := stripOptChar scrCurrency l
  let p2 := stripOptChar isPySpace p1.2
  let core := p2.2.takeWhile digitComma
  if core.isEmpty then none
  else
    let fr := fracDot02 (p2.2.dropWhile digitComma)
    some (p1.1 ++ p2.1 ++ core ++ fr.1, fr.2)

/-- `re.findall` driver: leftmost scanning with a matcher `m`, advancing
past each match and by one position on failure.  Fuel-driven; the input
length is always enough fuel because a successful match consumes at least
one character. -/
def scanWith (m : List Char → Option (List Char × List Char)) : ℕ → List Char → List (List Char)
  | 0, _ => []
  | _ + 1, [] => []
  | f + 1, c :: cs =>
      match m (c :: cs) with
      | some (t, r) => t :: scanWith m f r
      | none => scanWith m f cs

/-! ## The three extractors -/

/-- `re.sub` preprocessing of `app/dashboard.py` `extract_price`
(lines 140-141): script/style blocks, then all tags, become spaces. -/
def dashboard_preprocess (s : List Char) : List Char :=
  let t1 := stripScriptStyle s.length s
  stripTags t1.length t1

/-- Candidate tokens of `extract_price` (lines 144-146): the primary
pattern's matches, or the fallback pattern's matches when there are none. -/
def dashboard_matches (t : List Char) : List (List Char) :=
  let ms := scanWith dashMatch1 t.length t
  if ms.isEmpty then scanWith dashMatch2 t.length t else ms

/-- The candidate loop of `extract_price` (lines 147-158): clean each token
to digits and periods, skip empty or unparseable ones, and return the first
value above the plausibility threshold `10`. -/
def dashboard_loop : List (List Char) → Option ℚ
  | [] => none
  | m :: rest =>
      let cleaned := cleanNumTok m
      if cleaned.isEmpty then dashboard_loop rest
      else
        match pyFloat cleaned with
        | some v => if 10 < v then some v else dashboard_loop rest
        | none => dashboard_loop rest

/-- `app/dashboard.py` `extract_price` (lines 135-158); an empty (falsy)
input short-circuits to `None`. -/
def dashboard_extract_price (s : List Char) : Option ℚ :=
  if s.isEmpty then none
  else dashboard_loop (dashboard_matches (dashboard_preprocess s))

/-- `tracker_worker.py` `extract_price` (lines 49-57): strip tags, find all
`₹\s?([\d,]+\.?\d*)` matches, take the first, remove commas and parse;
every failure path returns `None`. -/
def worker_extract_price (s : List Char) : Option ℚ :=
  let t := stripTags s.length s
  match scanWith workerMatch t.length t with
  | [] => none
  | m :: _ => pyFloat (m.filter (fun c => !(c = ',')))

/-- Python `text.split()`: maximal non-whitespace runs, no empties. -/
def pyWords : ℕ → List Char → List (List Char)
  | 0, _ => []
  | _ + 1, [] => []
  | f + 1, c :: cs =>
      if isPySpace c then pyWords f cs
      else (c :: cs.takeWhile (fun x => !isPySpace x)) :: pyWords f (cs.dropWhile (fun x => !isPySpace x))

/-- `" ".join(text.split())` of `extract_price_from_text` (line 94). -/
def scripts_clean_text (s : List Char) : List Char :=
  List.intercalate [' '] (pyWords s.length s)

/-- The candidate loop of `extract_price_from_text` (lines 103-113): the
first token whose digits-and-periods cleaning parses is returned together
with its raw text; no plausibility threshold is applied.  When no token
parses, the first match is returned as the diagnostic. -/
def scripts_loop (fallbackRaw : List Char) : List (List Char) → Option ℚ × List Char
  | [] => (none, fallbackRaw)
  | m :: rest =>
      let cleaned := cleanNumTok m
      if cleaned.isEmpty then scripts_loop fallbackRaw rest
      else
        match pyFloat cleaned with
        | some v => (some v, m)
        | none => scripts_loop fallbackRaw rest

/-- `scripts/tracker.py` `extract_price_from_text` (lines 92-113); with no
match at all, the first 100 characters of the cleaned text are the
diagnostic. -/
def scripts_extract_price_from_text (text : List Char) : Option ℚ × List Char :=
  let clean := scripts_clean_text text
  match scanWith scriptsMatch clean.length clean with
  | [] => (none, clean.take 100)
  | m :: rest => scripts_loop m (m :: rest)

/-! ## Per-fetch bookkeeping -/

/-- The rows `scripts/tracker.py` `fetch_price` (lines 116-144) inserts into
`prices` for one fetch attempt: on success, the extractor's result (with the
`-1.0` sentinel when no price parsed) and its raw text; on any exception —
connection error, timeout, or the `raise_for_status` of a non-2xx response —
a sentinel row with `"error: " + str(e)`.  Exactly one row either way, and
both branches return normally: the exception never escapes the function. -/
def scripts_fetch_price_rows (itemId : String) (ts : ℚ) : FetchOutcome → List PriceRow
  | .success body =>
      let r := scripts_extract_price_from_text body
      [⟨itemId, ts, r.1.getD (-1), r.2⟩]
  | .httpError _ msg => [⟨itemId, ts, -1, ("error: ".toList ++ msg)⟩]
  | .netError msg => [⟨itemId, ts, -1, ("error: ".toList ++ msg)⟩]

/-- The rows `tracker_worker.py` `check_once` (lines 84-98) inserts for one
item in one tick: a non-200 status hits `continue` before any insert, and a
request exception jumps to the per-item handler, also before any insert;
only a 200 response reaches the `INSERT`, which stores the extracted price
or the `-1` sentinel.  The worker's `prices` schema has no diagnostic
column, so a row is a `(checked_at, price)` pair. -/
def worker_check_once_rows (ts : ℚ) : FetchOutcome → List (ℚ × ℚ)
  | .success body => [(ts, (worker_extract_price body).getD (-1))]
  | .httpError _ _ => []
  | .netError _ => []

/-! # Theorems

One theorem (plus witness or counterexample where required) per claim of the
specification, with the supporting lemmas before them. -/

/-- Sample rows for concrete instantiations. -/
def sampleItem : ItemRow := ⟨"a", "Widget".toList, "http://x".toList, 500, 0⟩

/-- Sample price row belonging to `sampleItem`. -/
def sampleRow : PriceRow := ⟨"a", 1, 450, "₹450".toList⟩

/-- Claim C3 (amended): the dashboard and streamlit alert guards fire
exactly when the sample price is a concrete positive number, the target is
positive, the price is at or below the target, and the cooldown has
elapsed; the worker guard (see the counterexample) omits the positivity
requirements. -/
theorem c3_fire_iff_spec (cooldown now : ℚ) (price : Option ℚ)
    (target last : ℚ) (lastOpt : Option ℚ) :
    (streamlit_fire cooldown now price target last = true ↔
      specAlertFire cooldown now price target last) ∧
    (dashboard_fire cooldown now price target lastOpt = true ↔
      specAlertFire cooldown now price target (lastOpt.getD 0)) := by
  constructor
  · cases price with
    | none => simp [streamlit_fire, specAlertFire]
    | some p =>
        simp [streamlit_fire, specAlertFire]
        exact ⟨fun h => ⟨h.1.1.2, h.1.2, h.2⟩,
          fun h => ⟨⟨⟨ne_of_gt h.1, h.1⟩, h.2.1⟩, h.2.2⟩⟩
  · cases price with
    | none => simp [dashboard_fire, specAlertFire]
    | some p =>
        simp [dashboard_fire, specAlertFire]
        exact ⟨fun h => ⟨h.1.2, h.1.1.2, h.2⟩,
          fun h => ⟨⟨⟨ne_of_gt h.2.1, h.2.1⟩, h.1⟩, h.2.2⟩⟩

/-- Claim C3, counterexample: `tracker_worker.py`'s guard fires for a zero
price against a zero (or unset) target once the cooldown is over, although
the claimed condition requires a positive price and a positive target. -/
theorem c3_counterexample :
    worker_fire 10 100 (some 0) (some 0) (some 0) = true ∧
      ¬ specAlertFire 10 100 (some 0) 0 0 := by
  constructor
  · norm_num [worker_fire]
  · rintro ⟨p, hp, hpos, -⟩
    rw [Option.some.injEq] at hp
    subst hp
    exact lt_irrefl 0 hpos

/-- Claim C2 (amended): in the dashboard engine, when no successful send
occurs — the guard does not fire, or the notifier reports failure —
`last_alert_at` is unchanged by the evaluation, and re-evaluating from the
resulting state with the same inputs yields the identical decision. -/
theorem c2_no_send_no_mutation (cooldown now : ℚ) (price : Option ℚ)
    (target last : ℚ) (sendOk : Bool)
    (h : sendOk = false ∨ dashboard_fire cooldown now price target (some last) = false) :
    (dashboard_step cooldown now price target last sendOk).1 = last ∧
      dashboard_step cooldown now price target
          ((dashboard_step cooldown now price target last sendOk).1) sendOk =
        dashboard_step cooldown now price target last sendOk := by
  have h1 : (dashboard_step cooldown now price target last sendOk).1 = last := by
    rcases h with rfl | hf
    · simp [dashboard_step]
    · simp [dashboard_step, hf]
  exact ⟨h1, by rw [h1]⟩

/-- Claim C2, witness: a failed send over an otherwise firing sample leaves
`last_alert_at` at its prior value `0`, and the repeated evaluation is
identical. -/
theorem c2_witness :
    (dashboard_step 10 100 (some 50) 100 0 false).1 = 0 ∧
      dashboard_step 10 100 (some 50) 100
          ((dashboard_step 10 100 (some 50) 100 0 false).1) false =
        dashboard_step 10 100 (some 50) 100 0 false :=
  c2_no_send_no_mutation 10 100 (some 50) 100 0 false (Or.inl rfl)

/-- Claim C2, counterexample: `streamlit_app.py`'s `check_item_logic`
ignores the notifier's result, so an evaluation whose send fails
(`sendOk = false`) still advances `last_alert_at` from `0` to `100`. -/
theorem c2_counterexample :
    (streamlit_step 10 100 (some 50) 100 0 false).1 = 100 ∧ (100 : ℚ) ≠ 0 := by
  constructor
  · norm_num [streamlit_step, streamlit_fire]
  · norm_num

/-- Claim C9 (amended): only `scripts/tracker.py`'s poller computes the
inter-tick wait from the elapsed time: its sleep is never negative, it is
zero whenever the tick took at least the configured interval, and for a
fast tick it exactly tops the tick up to the interval.  (The worker and
dashboard pollers sleep the full interval regardless; see the
counterexample.) -/
theorem c9_scripts_sleep_spec (interval s t : ℚ) :
    (interval ≤ t - s → scripts_poller_sleep interval s t = 0) ∧
      (t - s ≤ interval → (t - s) + scripts_poller_sleep interval s t = interval) ∧
      0 ≤ scripts_poller_sleep interval s t := by
  refine ⟨fun h => ?_, fun h => ?_, le_max_left 0 _⟩
  · rw [scripts_poller_sleep, max_eq_left (by linarith)]
  · rw [scripts_poller_sleep, max_eq_right (by linarith)]
    ring

/-- Claim C9, witness: a 100-second tick against a 60-second interval waits
`0`; a 40-second tick waits exactly the remaining 20 seconds. -/
theorem c9_witness :
    scripts_poller_sleep 60 0 100 = 0 ∧ (40 : ℚ) + scripts_poller_sleep 60 0 40 = 60 :=
  ⟨(c9_scripts_sleep_spec 60 0 100).1 (by norm_num),
    by have h := (c9_scripts_sleep_spec 60 0 40).2.1 (by norm_num); simpa using h⟩

/-- Claim C9, counterexample: after a 700-second tick with a 600-second
configured delay, `tracker_worker.py` waits the full `600` (and the
dashboard poller likewise waits its full interval), not
`max(0, interval − elapsed) = 0`. -/
theorem c9_counterexample :
    worker_loop_sleep 600 700 = 600 ∧ max 0 ((600 : ℚ) - 700) = 0 ∧
      (600 : ℚ) ≠ 0 ∧ dashboard_poller_sleep 3600 3700 = 3600 := by
  refine ⟨rfl, ?_, by norm_num, rfl⟩
  rw [max_eq_left (by norm_num)]

/-- Claim C10 (amended): neither startup path rebuilds the store.  The
streamlit `init_db` never deletes rows (it only ensures the schema), on an
unreadable store it reports the failure and leaves the file exactly as it
was, and the worker's `check_once` likewise returns leaving a failing store
untouched. -/
theorem c10_no_destructive_recovery (db : DbFile) :
    ((streamlit_init_db db).1.items = db.items ∧
      (streamlit_init_db db).1.prices = db.prices) ∧
      (db.corrupt = true → streamlit_init_db db = (db, true)) ∧
      (worker_check_once_read db).2 = db := by
  unfold streamlit_init_db worker_check_once_read
  by_cases h : db.corrupt = true <;> simp [h]

/-- Claim C10, witness: on a concrete unreadable store the failure branch is
taken and the store is returned unchanged. -/
theorem c10_witness :
    streamlit_init_db ⟨true, true, [sampleItem], [sampleRow]⟩ =
      (⟨true, true, [sampleItem], [sampleRow]⟩, true) :=
  (c10_no_destructive_recovery ⟨true, true, [sampleItem], [sampleRow]⟩).2.1 rfl

/-- Claim C10, counterexample: a corrupt store still holds its item row
after `init_db`, so the store is not "deleted and recreated empty" as
claimed. -/
theorem c10_counterexample :
    (streamlit_init_db ⟨true, true, [sampleItem], [sampleRow]⟩).1.items = [sampleItem] ∧
      [sampleItem] ≠ ([] : List ItemRow) := by
  exact ⟨rfl, by simp⟩

/-- Claim C4 (amended): `scripts/tracker.py`'s `fetch_price` appends exactly
one history row per fetch attempt — on success the extraction result, on
any failure (network error, timeout or non-2xx status) a row with the
no-price sentinel `-1` and an `"error: ..."` diagnostic — and returns
normally in both branches.  (`tracker_worker.py` appends no row on fetch
failure; see the counterexample.) -/
theorem c4_scripts_one_row_per_attempt (itemId : String) (ts : ℚ) (o : FetchOutcome) :
    (scripts_fetch_price_rows itemId ts o).length = 1 ∧
      (o.isFailure = true → ∃ msg, scripts_fetch_price_rows itemId ts o =
        [⟨itemId, ts, -1, ("error: ".toList ++ msg)⟩]) := by
  cases o <;> simp [scripts_fetch_price_rows, FetchOutcome.isFailure]

/-- Claim C4, witness: a 503 response yields exactly one sentinel row with
its diagnostic text. -/
theorem c4_witness :
    (scripts_fetch_price_rows "i" 5 (.httpError 503 ("Server Error".toList))).length = 1 ∧
      ∃ msg, scripts_fetch_price_rows "i" 5 (.httpError 503 ("Server Error".toList)) =
        [⟨"i", 5, -1, ("error: ".toList ++ msg)⟩] :=
  ⟨(c4_scripts_one_row_per_attempt "i" 5 (.httpError 503 ("Server Error".toList))).1,
    (c4_scripts_one_row_per_attempt "i" 5 (.httpError 503 ("Server Error".toList))).2 rfl⟩

/-- Claim C4, counterexample: in `tracker_worker.py` a non-200 fetch hits
`continue` before the `INSERT`, so zero rows — not exactly one — are
appended for that fetch attempt. -/
theorem c4_counterexample :
    worker_check_once_rows 5 (.httpError 503 ("Server Error".toList)) = [] ∧
      (worker_check_once_rows 5 (.httpError 503 ("Server Error".toList))).length ≠ 1 := by
  exact ⟨rfl, by simp [worker_check_once_rows]⟩

/-- Claim C5 (amended): under the dashboard engine's store operations an
item's history length never decreases, except that the dashboard Delete
button cascades and leaves the history empty.  (The streamlit variant's
Delete removes only the item row and keeps the history; see the
counterexample.) -/
theorem c5_history_monotone (st : Store) (op : StoreOp) (id : String)
    (h : op ≠ .deleteItem id) :
    (historyFor st id).length ≤ (historyFor (applyOp op st) id).length ∧
      historyFor (applyOp (.deleteItem id) st) id = [] := by
  constructor
  · cases op with
    | addItem it => simp [historyFor, applyOp]
    | recordPrice r => simp [historyFor, applyOp, List.filter_append]
    | updateName id' nm => simp [historyFor, applyOp]
    | updateTarget id' t => simp [historyFor, applyOp]
    | setLastAlert id' ts => simp [historyFor, applyOp]
    | deleteItem id' =>
        have hne : id' ≠ id := fun hh => h (by rw [hh])
        simp only [historyFor, applyOp, List.filter_filter]
        apply le_of_eq
        apply congrArg
        apply List.filter_congr
        intro r _
        by_cases hr : r.itemId = id
        · have hb : (r.itemId == id') = false := by
            rw [hr]
            exact beq_eq_false_iff_ne.mpr (Ne.symm hne)
          simp [hr, hb]
          exact fun hh => hne hh.symm
        · simp [hr]
  · simp only [historyFor, applyOp, List.filter_filter]
    rw [List.filter_eq_nil_iff]
    intro r _
    by_cases hr : r.itemId = id <;> simp [hr]

/-- Claim C5, witness: appending a sample does not shrink the history, and
the cascading delete empties it, on a concrete one-item store. -/
theorem c5_witness :
    (historyFor ⟨[sampleItem], [sampleRow]⟩ "a").length ≤
      (historyFor (applyOp (.recordPrice sampleRow) ⟨[sampleItem], [sampleRow]⟩) "a").length ∧
      historyFor (applyOp (.deleteItem "a") ⟨[sampleItem], [sampleRow]⟩) "a" = [] :=
  c5_history_monotone ⟨[sampleItem], [sampleRow]⟩ (.recordPrice sampleRow) "a"
    (fun hh => StoreOp.noConfusion hh)

/-- Claim C5, counterexample: the streamlit Delete removes the item row but
leaves its price history in place, so immediately after `deleteItem(id)`
the history is not empty. -/
theorem c5_counterexample :
    historyFor (streamlit_delete "a" ⟨[sampleItem], [sampleRow]⟩) "a" = [sampleRow] ∧
      [sampleRow] ≠ ([] : List PriceRow) ∧
      (streamlit_delete "a" ⟨[sampleItem], [sampleRow]⟩).items = [] := by
  refine ⟨?_, by simp, ?_⟩
  · simp [historyFor, streamlit_delete, sampleRow]
  · simp [streamlit_delete, sampleItem]

/-- A firing dashboard guard certifies the elapsed cooldown. -/
lemma dashboard_fire_cooldown_gap {cooldown now : ℚ} {price : Option ℚ} {target last : ℚ}
    (h : dashboard_fire cooldown now price target (some last) = true) :
    cooldown < now - last := by
  cases price with
  | none => simp [dashboard_fire] at h
  | some p =>
      simp [dashboard_fire] at h
      exact h.2.2

/-- Unfolding of the successful-fire times over one evaluation. -/
lemma success_times_cons (cooldown last : ℚ) (e : PollEvent) (es : List PollEvent) :
    dashboard_success_fire_times cooldown last (e :: es) =
      if dashboard_fire cooldown e.now e.price e.target (some last) then
        (if e.sendOk then [e.now] else []) ++
          dashboard_success_fire_times cooldown (if e.sendOk then e.now else last) es
      else dashboard_success_fire_times cooldown last es := by
  simp only [dashboard_success_fire_times, dashboard_run_fires, dashboard_step]
  by_cases hf : dashboard_fire cooldown e.now e.price e.target (some last) = true
  · cases hs : e.sendOk <;> simp [hf, hs]
  · rw [Bool.not_eq_true] at hf
    simp [hf]

/-- Every successful fire lies strictly more than one cooldown after the
`last_alert_at` value the run started from. -/
lemma success_fire_mem_gap (cooldown : ℚ) (hc : 0 ≤ cooldown) :
    ∀ (es : List PollEvent) (last t : ℚ),
      t ∈ dashboard_success_fire_times cooldown last es → cooldown < t - last := by
  intro es
  induction es with
  | nil =>
      intro last t ht
      simp [dashboard_success_fire_times, dashboard_run_fires] at ht
  | cons e es ih =>
      intro last t ht
      rw [success_times_cons] at ht
      by_cases hf : dashboard_fire cooldown e.now e.price e.target (some last) = true
      · have hgap := dashboard_fire_cooldown_gap hf
        rw [hf] at ht
        cases hs : e.sendOk
        · rw [hs] at ht
          simp at ht
          have := ih last t ht
          linarith
        · rw [hs] at ht
          simp at ht
          rcases ht with rfl | ht
          · exact hgap
          · have := ih e.now t ht
            linarith
      · rw [Bool.not_eq_true] at hf
        rw [hf] at ht
        simp at ht
        exact ih last t ht

/-- Successful fires are pairwise separated by strictly more than the
cooldown. -/
lemma success_fire_pairwise (cooldown : ℚ) (hc : 0 ≤ cooldown) :
    ∀ (es : List PollEvent) (last : ℚ),
      (dashboard_success_fire_times cooldown last es).Pairwise
        (fun a b => cooldown < b - a) := by
  intro es
  induction es with
  | nil =>
      intro last
      simp [dashboard_success_fire_times, dashboard_run_fires]
  | cons e es ih =>
      intro last
      rw [success_times_cons]
      by_cases hf : dashboard_fire cooldown e.now e.price e.target (some last) = true
      · rw [hf]
        cases hs : e.sendOk
        · simpa using ih last
        · simp only [if_true, List.singleton_append, List.pairwise_cons]
          exact ⟨fun b hb => success_fire_mem_gap cooldown hc es e.now b hb, ih e.now⟩
      · rw [Bool.not_eq_true] at hf
        rw [hf]
        simpa using ih last

/-- Claim C1 (amended): in the dashboard engine, any two fired alerts whose
sends were confirmed successful are separated by strictly more than the
cooldown duration; a fired alert whose send fails does not advance
`last_alert_at` and may therefore be followed by another fired alert within
the cooldown window (see the counterexample). -/
theorem c1_confirmed_alerts_separated (cooldown last0 : ℚ) (es : List PollEvent)
    (hc : 0 ≤ cooldown) :
    (dashboard_success_fire_times cooldown last0 es).Pairwise
      (fun a b => cooldown < b - a) :=
  success_fire_pairwise cooldown hc es last0

/-- Claim C1, witness: two successful fires at times 100 and 200 against a
cooldown of 10 satisfy the pairwise separation. -/
theorem c1_witness :
    (dashboard_success_fire_times 10 0
        [⟨100, some 5, 10, true⟩, ⟨200, some 5, 10, true⟩]).Pairwise
      (fun a b => (10 : ℚ) < b - a) :=
  c1_confirmed_alerts_separated 10 0 _ (by norm_num)

/-- Claim C1, counterexample: with failing sends the dashboard fires twice,
at times 100 and 101, one second apart — not more than the cooldown 10 —
because the failed first send left `last_alert_at` at 0. -/
theorem c1_counterexample :
    dashboard_run_fires 10 0 [⟨100, some 5, 10, false⟩, ⟨101, some 5, 10, false⟩] =
      [(100, false), (101, false)] ∧ ¬ (10 : ℚ) < 101 - 100 := by
  constructor
  · norm_num [dashboard_run_fires, dashboard_step, dashboard_fire]
  · norm_num

/-- The selection policy in the spec's words (§4.1): of the candidate
tokens, take the first whose cleaned text parses as a number exceeding the
plausibility threshold 10; if no candidate survives, no price is found. -/
def specFirstPlausible (tokens : List (List Char)) : Option ℚ :=
  (tokens.filterMap (fun t => pyFloat (cleanNumTok t))).find? (fun v => decide (10 < v))

/-- `pyFloat` fails on the empty string. -/
lemma pyFloat_nil : pyFloat [] = none := rfl

/-- The dashboard candidate loop implements the spec's first-plausible
selection. -/
lemma dashboard_loop_eq_specFirstPlausible :
    ∀ ts, dashboard_loop ts = specFirstPlausible ts := by
  intro ts
  induction ts with
  | nil => rfl
  | cons m rest ih =>
      rw [dashboard_loop, specFirstPlausible]
      by_cases he : (cleanNumTok m).isEmpty
      · have : cleanNumTok m = [] := by simpa using he
        rw [if_pos he]
        simp only [List.filterMap_cons, this, pyFloat_nil]
        exact ih
      · rw [if_neg he]
        cases hp : pyFloat (cleanNumTok m) with
        | none =>
            simp only [List.filterMap_cons, hp]
            exact ih
        | some v =>
            simp only [List.filterMap_cons, hp, List.find?_cons]
            by_cases hv : 10 < v
            · simp [hv]
            · have hd : decide (10 < v) = false := decide_eq_false hv
              rw [if_neg hv, hd]
              exact ih

/-- Claim C6 (amended): the dashboard extractor returns exactly the first
candidate token that parses to a value above the plausibility threshold 10,
and no price when no candidate survives.  (The `scripts/tracker.py`
extractor applies no threshold; see the counterexample.) -/
theorem c6_dashboard_first_plausible (s : List Char) :
    dashboard_extract_price s =
      specFirstPlausible (dashboard_matches (dashboard_preprocess s)) := by
  unfold dashboard_extract_price
  by_cases h : s.isEmpty
  · have : s = [] := by simpa using h
    subst this
    rfl
  · rw [if_neg h, dashboard_loop_eq_specFirstPlausible]

/-- Claim C6, counterexample: on `"5 stars ₹ 1,999"` the scripts extractor
returns the bare `5` — a value not exceeding 10 — although the plausible
candidate `1999` is among the parsed tokens; the claimed selection would
have returned `1999`. -/
theorem c6_counterexample :
    (scripts_extract_price_from_text ("5 stars ₹ 1,999".toList)).1 = some 5 ∧
      ¬ (10 : ℚ) < 5 ∧
      (1999 : ℚ) ∈ (scanWith scriptsMatch
          (scripts_clean_text ("5 stars ₹ 1,999".toList)).length
          (scripts_clean_text ("5 stars ₹ 1,999".toList))).filterMap
        (fun t => pyFloat (cleanNumTok t)) := by
  refine ⟨by decide, by norm_num, by decide⟩

/-- `stripOptChar` splits its input. -/
lemma stripOptChar_append (p : Char → Bool) (l : List Char) :
    (stripOptChar p l).1 ++ (stripOptChar p l).2 = l := by
  cases l with
  | nil => rfl
  | cons c cs => by_cases h : p c <;> simp [stripOptChar, h]

/-- A `take` of a `takeWhile` is an initial segment: dropping its length
recovers the rest of the list. -/
lemma takeWhile_take_append_drop (p : Char → Bool) (n : ℕ) (cs : List Char) :
    (cs.takeWhile p).take n ++ cs.drop ((cs.takeWhile p).take n).length = cs := by
  set X := (cs.takeWhile p).take n with hX
  set Y := (cs.takeWhile p).drop n ++ cs.dropWhile p with hY
  have h1 : X ++ Y = cs := by
    rw [hX, hY, ← List.append_assoc, List.take_append_drop, List.takeWhile_append_dropWhile]
  rw [← h1, List.drop_left]

/-- `fracUpTo2` splits its input. -/
lemma fracUpTo2_append (l : List Char) : (fracUpTo2 l).1 ++ (fracUpTo2 l).2 = l := by
  unfold fracUpTo2
  split
  · next cs =>
      by_cases h : ((cs.takeWhile Char.isDigit).take 2).isEmpty
      · rw [if_pos h]
        rfl
      · rw [if_neg h]
        simpa using takeWhile_take_append_drop Char.isDigit 2 cs
  · rfl

/-- `fracDotStar` splits its input. -/
lemma fracDotStar_append (l : List Char) : (fracDotStar l).1 ++ (fracDotStar l).2 = l := by
  unfold fracDotStar
  split
  · next cs => simp [List.takeWhile_append_dropWhile]
  · rfl

/-- A successful `dashMatch1` splits its input into token and rest. -/
lemma dashMatch1_decomp {l t r : List Char} (h : dashMatch1 l = some (t, r)) :
    l = t ++ r := by
  unfold dashMatch1 at h
  dsimp only at h
  split at h
  · exact absurd h (by simp)
  · rw [Option.some.injEq, Prod.mk.injEq] at h
    obtain ⟨rfl, rfl⟩ := h
    rw [List.append_assoc, List.append_assoc, List.append_assoc, fracUpTo2_append,
      List.takeWhile_append_dropWhile, stripOptChar_append, stripOptChar_append]

/-- A successful `dashMatch2` splits its input into token and rest. -/
lemma dashMatch2_decomp {l t r : List Char} (h : dashMatch2 l = some (t, r)) :
    l = t ++ r := by
  unfold dashMatch2 at h
  split at h
  · exact absurd h (by simp)
  · next c _ =>
      dsimp only at h
      by_cases hc : c.isDigit
      · rw [if_pos hc, Option.some.injEq, Prod.mk.injEq] at h
        obtain ⟨rfl, rfl⟩ := h
        rw [List.append_assoc, fracUpTo2_append, List.takeWhile_append_dropWhile]
      · rw [if_neg hc] at h
        exact absurd h (by simp)

/-- Characters of a successful `workerMatch`'s token and rest come from the
input. -/
lemma workerMatch_mem {l t r : List Char} (h : workerMatch l = some (t, r)) :
    (∀ c ∈ t, c ∈ l) ∧ ∀ c ∈ r, c ∈ l := by
  unfold workerMatch at h
  split at h
  · exact absurd h (by simp)
  · next c0 cs =>
      by_cases hc0 : c0 = '₹'
      case neg =>
        rw [if_neg hc0] at h
        exact absurd h (by simp)
      rw [if_pos hc0] at h
      dsimp only at h
      split at h
      · exact absurd h (by simp)
      · rw [Option.some.injEq, Prod.mk.injEq] at h
        obtain ⟨rfl, rfl⟩ := h
        have hsplit : (stripOptChar isPySpace cs).1 ++
            (((stripOptChar isPySpace cs).2.takeWhile digitComma) ++
              ((fracDotStar ((stripOptChar isPySpace cs).2.dropWhile digitComma)).1 ++
                (fracDotStar ((stripOptChar isPySpace cs).2.dropWhile digitComma)).2)) = cs := by
          rw [fracDotStar_append, List.takeWhile_append_dropWhile, stripOptChar_append]
        constructor
        · intro c hc
          apply List.mem_cons_of_mem
          rw [← hsplit]
          rcases List.mem_append.mp hc with h1 | h2
          · exact List.mem_append_right _ (List.mem_append_left _ h1)
          · exact List.mem_append_right _ (List.mem_append_right _ (List.mem_append_left _ h2))
        · intro c hc
          apply List.mem_cons_of_mem
          rw [← hsplit]
          exact List.mem_append_right _ (List.mem_append_right _ (List.mem_append_right _ hc))

/-- Characters of any token produced by `scanWith` come from the scanned
text, provided the matcher's tokens do. -/
lemma scanWith_token_mem {m : List Char → Option (List Char × List Char)}
    (hm : ∀ {l t r : List Char}, m l = some (t, r) →
      (∀ c ∈ t, c ∈ l) ∧ ∀ c ∈ r, c ∈ l) :
    ∀ (f : ℕ) (l tok : List Char), tok ∈ scanWith m f l → ∀ c ∈ tok, c ∈ l := by
  intro f
  induction f with
  | zero => intro l tok ht; simp [scanWith] at ht
  | succ f ih =>
      intro l tok ht c hc
      cases l with
      | nil => simp [scanWith] at ht
      | cons a cs =>
          rw [scanWith] at ht
          split at ht
          · next t r heq =>
              rcases List.mem_cons.mp ht with rfl | ht'
              · exact (hm heq).1 c hc
              · exact (hm heq).2 c (ih r tok ht' c hc)
          · exact List.mem_cons_of_mem a (ih cs tok ht c hc)

/-- `pyFloat` fails on any digit-free string, as Python's `float` raises
there. -/
lemma pyFloat_none_of_no_digit {l : List Char} (h : ∀ c ∈ l, c.isDigit = false) :
    pyFloat l = none := by
  have htw : l.takeWhile Char.isDigit = [] := by
    cases l with
    | nil => rfl
    | cons c cs => simp [List.takeWhile_cons, h c (List.mem_cons_self c cs)]
  have hdw : l.dropWhile Char.isDigit = l := by
    cases l with
    | nil => rfl
    | cons c cs => simp [List.dropWhile_cons, h c (List.mem_cons_self c cs)]
  unfold pyFloat
  rw [htw, hdw]
  cases l with
  | nil => rfl
  | cons c cs =>
      dsimp only
      by_cases hc : c = '.'
      · rw [if_pos hc]
        cases cs with
        | nil => rfl
        | cons d ds =>
            have hd : d.isDigit = false := h d (by simp)
            simp [hd]
      · rw [if_neg hc]

/-- The dashboard candidate loop finds nothing among digit-free tokens. -/
lemma dashboard_loop_none {ts : List (List Char)}
    (h : ∀ t ∈ ts, ∀ c ∈ t, c.isDigit = false) :
    dashboard_loop ts = none := by
  induction ts with
  | nil => rfl
  | cons m rest ih =>
      have hm : ∀ c ∈ cleanNumTok m, c.isDigit = false :=
        fun c hc => h m (List.mem_cons_self m rest) c (List.mem_of_mem_filter hc)
      have hrest : ∀ t ∈ rest, ∀ c ∈ t, c.isDigit = false :=
        fun t ht => h t (List.mem_cons_of_mem m ht)
      rw [dashboard_loop]
      by_cases he : (cleanNumTok m).isEmpty
      · rw [if_pos he]
        exact ih hrest
      · rw [if_neg he, pyFloat_none_of_no_digit hm]
        exact ih hrest

/-- Tag stripping only removes characters or writes spaces. -/
lemma stripTags_mem : ∀ (f : ℕ) (l : List Char) (c : Char),
    c ∈ stripTags f l → c ∈ l ∨ c = ' ' := by
  intro f
  induction f with
  | zero => intro l c hc; exact Or.inl hc
  | succ f ih =>
      intro l c hc
      cases l with
      | nil => simp [stripTags] at hc
      | cons a cs =>
          rw [stripTags] at hc
          by_cases ha : a = '<'
          · rw [if_pos ha] at hc
            by_cases he : (cs.takeWhile (fun x => !(x = '>'))).isEmpty
            · rw [if_pos he] at hc
              rcases List.mem_cons.mp hc with rfl | hc'
              · exact Or.inl (ha ▸ List.mem_cons_self a cs)
              · rcases ih cs c hc' with h' | h'
                · exact Or.inl (List.mem_cons_of_mem a h')
                · exact Or.inr h'
            · rw [if_neg he] at hc
              split at hc
              · next b r heq =>
                  rcases List.mem_cons.mp hc with rfl | hc'
                  · exact Or.inr rfl
                  · rcases ih r c hc' with h' | h'
                    · refine Or.inl (List.mem_cons_of_mem a ?_)
                      refine (List.dropWhile_sublist (fun x => !(x = '>'))).subset ?_
                      rw [heq]
                      exact List.mem_cons_of_mem _ h'
                    · exact Or.inr h'
              · rcases List.mem_cons.mp hc with rfl | hc'
                · exact Or.inl (ha ▸ List.mem_cons_self a cs)
                · rcases ih cs c hc' with h' | h'
                  · exact Or.inl (List.mem_cons_of_mem a h')
                  · exact Or.inr h'
          · rw [if_neg ha] at hc
            rcases List.mem_cons.mp hc with rfl | hc'
            · exact Or.inl (List.mem_cons_self c cs)
            · rcases ih cs c hc' with h' | h'
              · exact Or.inl (List.mem_cons_of_mem a h')
              · exact Or.inr h'

/-- `dropThroughCI` returns a suffix of its input. -/
lemma dropThroughCI_suffix (pat : List Char) : ∀ (f : ℕ) (l r : List Char),
    dropThroughCI pat f l = some r → r <:+ l := by
  intro f
  induction f with
  | zero => intro l r h; simp [dropThroughCI] at h
  | succ f ih =>
      intro l r h
      cases l with
      | nil => simp [dropThroughCI] at h
      | cons c cs =>
          rw [dropThroughCI] at h
          by_cases hs : startsWithCI pat (c :: cs) = true
          · rw [if_pos hs, Option.some.injEq] at h
            exact h ▸ List.drop_suffix pat.length (c :: cs)
          · rw [if_neg hs] at h
            exact (ih cs r h).trans (List.suffix_cons c cs)

/-- Script/style-block stripping only removes characters or writes
spaces. -/
lemma stripScriptStyle_mem : ∀ (f : ℕ) (l : List Char) (c : Char),
    c ∈ stripScriptStyle f l → c ∈ l ∨ c = ' ' := by
  intro f
  induction f with
  | zero => intro l c hc; exact Or.inl hc
  | succ f ih =>
      intro l c hc
      cases l with
      | nil => simp [stripScriptStyle] at hc
      | cons a cs =>
          have step : ∀ hc' : c ∈ a :: stripScriptStyle f cs, c ∈ a :: cs ∨ c = ' ' := by
            intro hc'
            rcases List.mem_cons.mp hc' with rfl | hc''
            · exact Or.inl (List.mem_cons_self c cs)
            · rcases ih cs c hc'' with h' | h'
              · exact Or.inl (List.mem_cons_of_mem a h')
              · exact Or.inr h'
          rw [stripScriptStyle] at hc
          by_cases ha : a = '<'
          · rw [if_pos ha] at hc
            subst ha
            cases htag : ssTagAt cs with
            | none =>
                rw [htag] at hc
                exact step hc
            | some tag =>
                rw [htag] at hc
                dsimp only at hc
                cases hgt : dropThroughCI ['>'] cs.length (cs.drop tag.length) with
                | none =>
                    rw [hgt] at hc
                    exact step hc
                | some afterGt =>
                    rw [hgt] at hc
                    dsimp only at hc
                    cases hcl : dropThroughCI ('<' :: '/' :: tag ++ ['>'])
                        afterGt.length afterGt with
                    | none =>
                        rw [hcl] at hc
                        exact step hc
                    | some afterClose =>
                        rw [hcl] at hc
                        dsimp only at hc
                        rcases List.mem_cons.mp hc with rfl | hc'
                        · exact Or.inr rfl
                        · rcases ih afterClose c hc' with h' | h'
                          · have h1 : afterClose <:+ afterGt :=
                              dropThroughCI_suffix _ _ _ _ hcl
                            have h2 : afterGt <:+ cs.drop tag.length :=
                              dropThroughCI_suffix _ _ _ _ hgt
                            have h3 : cs.drop tag.length <:+ cs :=
                              List.drop_suffix tag.length cs
                            exact Or.inl (List.mem_cons_of_mem _
                              (h3.subset (h2.subset (h1.subset h'))))
                          · exact Or.inr h'
          · rw [if_neg ha] at hc
            exact step hc

/-- Claim C8 (amended): on any `str` content — empty, malformed, or with
no numeric token at all — the dashboard and worker extractors never raise
and, when the content is digit-free, return the "no price found" result.
(Totality of the embedding mirrors the sources' exception handling on
`str` arguments: every `float` failure is caught and mapped to a skip or a
`None` return.  A nonempty `bytes` argument, by contrast, raises
`TypeError`; see the counterexample.) -/
theorem c8_extract_none_on_digitfree (s : List Char)
    (h : ∀ c ∈ s, c.isDigit = false) :
    dashboard_extract_price s = none ∧ worker_extract_price s = none := by
  constructor
  · unfold dashboard_extract_price
    by_cases he : s.isEmpty
    · rw [if_pos he]
    · rw [if_neg he]
      have h1 : ∀ c ∈ stripScriptStyle s.length s, c.isDigit = false := by
        intro c hc
        rcases stripScriptStyle_mem s.length s c hc with h' | rfl
        · exact h c h'
        · rfl
      have h2 : ∀ c ∈ dashboard_preprocess s, c.isDigit = false := by
        intro c hc
        rcases stripTags_mem _ _ c hc with h' | rfl
        · exact h1 c h'
        · rfl
      apply dashboard_loop_none
      intro t ht c hc
      unfold dashboard_matches at ht
      by_cases hm : (scanWith dashMatch1 (dashboard_preprocess s).length
          (dashboard_preprocess s)).isEmpty
      · rw [if_pos hm] at ht
        refine h2 c (scanWith_token_mem ?_ _ _ t ht c hc)
        intro l t' r' hmt
        have hd := dashMatch2_decomp hmt
        exact ⟨fun c' hc' => hd ▸ List.mem_append_left _ hc',
          fun c' hc' => hd ▸ List.mem_append_right _ hc'⟩
      · rw [if_neg hm] at ht
        refine h2 c (scanWith_token_mem ?_ _ _ t ht c hc)
        intro l t' r' hmt
        have hd := dashMatch1_decomp hmt
        exact ⟨fun c' hc' => hd ▸ List.mem_append_left _ hc',
          fun c' hc' => hd ▸ List.mem_append_right _ hc'⟩
  · unfold worker_extract_price
    have h1 : ∀ c ∈ stripTags s.length s, c.isDigit = false := by
      intro c hc
      rcases stripTags_mem _ _ c hc with h' | rfl
      · exact h c h'
      · rfl
    dsimp only
    split
    · rfl
    · next m ms heq =>
        apply pyFloat_none_of_no_digit
        intro c hc
        have hcm : c ∈ m := List.mem_of_mem_filter hc
        refine h1 c (scanWith_token_mem (fun {l t r} hmt => workerMatch_mem hmt)
          ((stripTags s.length s).length) (stripTags s.length s) m ?_ c hcm)
        rw [heq]
        exact List.mem_cons_self m ms

/-- Claim C8, witness: a digit-free string yields "no price found" from both
extractors. -/
theorem c8_witness :
    dashboard_extract_price ("no price here!".toList) = none ∧
      worker_extract_price ("no price here!".toList) = none :=
  c8_extract_none_on_digitfree ("no price here!".toList) (by decide)

/-! ## Valid thousands-separated numerals (for the numeric-semantics claim) -/

/-- A decimal digit rendered as a character. -/
def digitChar (d : ℕ) : Char := Char.ofNat ('0'.toNat + d)

/-- An abstract thousands-separated numeral: a leading digit group, further
three-digit groups, and an optional decimal fraction given by its digit
list (empty meaning no decimal point).  Validity — nonempty lead of at most
three digits with nonzero first digit, at least one separator group, all
digits below ten, at most two fraction digits — is imposed by hypotheses on
the theorems. -/
structure ThousandsNumeral where
  lead : List ℕ
  groups : List (ℕ × ℕ × ℕ)
  frac : List ℕ

/-- The three digits of one separator group. -/
def groupDigits (g : ℕ × ℕ × ℕ) : List ℕ := [g.1, g.2.1, g.2.2]

/-- All digits of the integral part, separators removed. -/
def intDigits (n : ThousandsNumeral) : List ℕ :=
  n.lead ++ (n.groups.map groupDigits).flatten

/-- The integral part as written, with comma separators. -/
def renderInt (n : ThousandsNumeral) : List Char :=
  n.lead.map digitChar ++
    (n.groups.map (fun g => ',' :: (groupDigits g).map digitChar)).flatten

/-- The fractional part as written (with the period), or nothing. -/
def renderFrac (n : ThousandsNumeral) : List Char :=
  if n.frac.isEmpty then [] else '.' :: n.frac.map digitChar

/-- The numeral as written. -/
def renderNumeral (n : ThousandsNumeral) : List Char := renderInt n ++ renderFrac n

/-- Value of a digit list read in base 10. -/
def natDigitsVal (l : List ℕ) : ℕ := l.foldl (fun a d => 10 * a + d) 0

/-- The decimal value denoted by the numeral. -/
def numeralValQ (n : ThousandsNumeral) : ℚ :=
  (natDigitsVal (intDigits n) : ℚ) + (natDigitsVal n.frac : ℚ) / 10 ^ n.frac.length

/-- Rendering a digit below ten gives a digit character with that value. -/
lemma digitChar_spec {d : ℕ} (h : d < 10) :
    (digitChar d).isDigit = true ∧ digitVal (digitChar d) = d := by
  interval_cases d <;> exact ⟨rfl, rfl⟩

/-- A digit character differs from any non-digit character. -/
lemma isDigit_ne {c x : Char} (h : c.isDigit = true) (hx : x.isDigit = false) :
    ¬(c = x) := by
  intro e
  rw [e, hx] at h
  exact absurd h (by simp)

/-- Digit characters are not Python whitespace. -/
lemma not_space_of_isDigit {c : Char} (h : c.isDigit = true) : isPySpace c = false := by
  have h1 : ¬(c = ' ') := isDigit_ne h (by decide)
  have h2 : ¬(c = '\t') := isDigit_ne h (by decide)
  have h3 : ¬(c = '\n') := isDigit_ne h (by decide)
  have h4 : ¬(c = '\r') := isDigit_ne h (by decide)
  have h5 : ¬(c = '\x0b') := isDigit_ne h (by decide)
  have h6 : ¬(c = '\x0c') := isDigit_ne h (by decide)
  simp [isPySpace, h1, h2, h3, h4, h5, h6]

/-- Digits belong to the dashboard pattern's bracket class. -/
lemma dashClass_of_isDigit {c : Char} (h : c.isDigit = true) : dashClass c = true := by
  simp [dashClass, h]

/-- Digits belong to the digit-or-comma class. -/
lemma digitComma_of_isDigit {c : Char} (h : c.isDigit = true) : digitComma c = true := by
  simp [digitComma, h]

/-- `takeWhile` passes over a block that satisfies the predicate. -/
lemma takeWhile_append_of_all {p : Char → Bool} :
    ∀ (xs ys : List Char), (∀ c ∈ xs, p c = true) →
      (xs ++ ys).takeWhile p = xs ++ ys.takeWhile p := by
  intro xs
  induction xs with
  | nil => intro ys _; rfl
  | cons x xs ih =>
      intro ys h
      rw [List.cons_append, List.takeWhile_cons, h x (List.mem_cons_self x xs),
        if_pos rfl, ih ys (fun c hc => h c (List.mem_cons_of_mem x hc)), List.cons_append]

/-- `dropWhile` passes over a block that satisfies the predicate. -/
lemma dropWhile_append_of_all {p : Char → Bool} :
    ∀ (xs ys : List Char), (∀ c ∈ xs, p c = true) →
      (xs ++ ys).dropWhile p = ys.dropWhile p := by
  intro xs
  induction xs with
  | nil => intro ys _; rfl
  | cons x xs ih =>
      intro ys h
      rw [List.cons_append, List.dropWhile_cons, h x (List.mem_cons_self x xs),
        if_pos rfl, ih ys (fun c hc => h c (List.mem_cons_of_mem x hc))]

/-- `takeWhile` keeps a list all of whose members satisfy the predicate. -/
lemma takeWhile_eq_self_of_all {p : Char → Bool} :
    ∀ (l : List Char), (∀ c ∈ l, p c = true) → l.takeWhile p = l := by
  intro l
  induction l with
  | nil => intro _; rfl
  | cons x xs ih =>
      intro h
      rw [List.takeWhile_cons, h x (List.mem_cons_self x xs), if_pos rfl,
        ih (fun c hc => h c (List.mem_cons_of_mem x hc))]

/-- `dropWhile` empties a list all of whose members satisfy the predicate. -/
lemma dropWhile_eq_nil_of_all {p : Char → Bool} :
    ∀ (l : List Char), (∀ c ∈ l, p c = true) → l.dropWhile p = [] := by
  intro l
  induction l with
  | nil => intro _; rfl
  | cons x xs ih =>
      intro h
      rw [List.dropWhile_cons, h x (List.mem_cons_self x xs), if_pos rfl,
        ih (fun c hc => h c (List.mem_cons_of_mem x hc))]

/-- Characters of the rendered integral part are digits or commas. -/
lemma renderInt_mem {n : ThousandsNumeral} (h4 : ∀ d ∈ n.lead, d < 10)
    (h6 : ∀ g ∈ n.groups, g.1 < 10 ∧ g.2.1 < 10 ∧ g.2.2 < 10) :
    ∀ c ∈ renderInt n, c.isDigit = true ∨ c = ',' := by
  intro c hc
  unfold renderInt at hc
  rcases List.mem_append.mp hc with h | h
  · obtain ⟨d, hd, rfl⟩ := List.mem_map.mp h
    exact Or.inl (digitChar_spec (h4 d hd)).1
  · rcases List.mem_flatten.mp h with ⟨blk, hblk, hcblk⟩
    obtain ⟨g, hg, rfl⟩ := List.mem_map.mp hblk
    rcases List.mem_cons.mp hcblk with rfl | hcd
    · exact Or.inr rfl
    · obtain ⟨d, hd, rfl⟩ := List.mem_map.mp hcd
      have hd10 : d < 10 := by
        rcases h6 g hg with ⟨ha, hb, hcc⟩
        simp [groupDigits] at hd
        rcases hd with rfl | rfl | rfl <;> assumption
      exact Or.inl (digitChar_spec hd10).1

/-- Characters of the rendered fraction are digits or the period. -/
lemma renderFrac_mem {n : ThousandsNumeral} (h8 : ∀ d ∈ n.frac, d < 10) :
    ∀ c ∈ renderFrac n, c.isDigit = true ∨ c = '.' := by
  intro c hc
  unfold renderFrac at hc
  by_cases he : n.frac.isEmpty
  · rw [if_pos he] at hc
    simp at hc
  · rw [if_neg he] at hc
    rcases List.mem_cons.mp hc with rfl | h
    · exact Or.inr rfl
    · obtain ⟨d, hd, rfl⟩ := List.mem_map.mp h
      exact Or.inl (digitChar_spec (h8 d hd)).1

/-- Script/style stripping leaves a `<`-free text unchanged. -/
lemma stripScriptStyle_id : ∀ (f : ℕ) (l : List Char), (∀ c ∈ l, ¬(c = '<')) →
    stripScriptStyle f l = l := by
  intro f
  induction f with
  | zero => intro l _; rfl
  | succ f ih =>
      intro l h
      cases l with
      | nil => rfl
      | cons a cs =>
          rw [stripScriptStyle, if_neg (h a (List.mem_cons_self a cs))]
          rw [ih cs (fun c hc => h c (List.mem_cons_of_mem a hc))]

/-- Tag stripping leaves a `<`-free text unchanged. -/
lemma stripTags_id : ∀ (f : ℕ) (l : List Char), (∀ c ∈ l, ¬(c = '<')) →
    stripTags f l = l := by
  intro f
  induction f with
  | zero => intro l _; rfl
  | succ f ih =>
      intro l h
      cases l with
      | nil => rfl
      | cons a cs =>
          rw [stripTags, if_neg (h a (List.mem_cons_self a cs))]
          rw [ih cs (fun c hc => h c (List.mem_cons_of_mem a hc))]

/-- `fracUpTo2` consumes a rendered fraction whole (at most two digits). -/
lemma fracUpTo2_renderFrac {n : ThousandsNumeral} (h7 : n.frac.length ≤ 2)
    (h8 : ∀ d ∈ n.frac, d < 10) :
    fracUpTo2 (renderFrac n) = (renderFrac n, []) := by
  unfold renderFrac
  by_cases he : n.frac.isEmpty
  · rw [if_pos he]
    rfl
  · rw [if_neg he]
    have hall : ∀ c ∈ n.frac.map digitChar, c.isDigit = true := by
      intro c hc
      obtain ⟨d, hd, rfl⟩ := List.mem_map.mp hc
      exact (digitChar_spec (h8 d hd)).1
  
    have htw : (n.frac.map digitChar).takeWhile Char.isDigit = n.frac.map digitChar :=
      takeWhile_eq_self_of_all _ hall
    have hlen : (n.frac.map digitChar).length ≤ 2 := by
      rw [List.length_map]
      exact h7
    have hne : n.frac.map digitChar ≠ [] := by
      simp only [ne_eq, List.map_eq_nil_iff]
      simpa using he
    show fracUpTo2 ('.' :: n.frac.map digitChar) = _
    rw [fracUpTo2]
    rw [htw, List.take_of_length_le hlen]
    rw [if_neg (by simpa using hne)]
    rw [List.drop_length]

/-- `fracDotStar` consumes a rendered fraction whole. -/
lemma fracDotStar_renderFrac {n : ThousandsNumeral} (h8 : ∀ d ∈ n.frac, d < 10) :
    fracDotStar (renderFrac n) = (renderFrac n, []) := by
  unfold renderFrac
  by_cases he : n.frac.isEmpty
  · rw [if_pos he]
    rfl
  · rw [if_neg he]
    have hall : ∀ c ∈ n.frac.map digitChar, c.isDigit = true := by
      intro c hc
      obtain ⟨d, hd, rfl⟩ := List.mem_map.mp hc
      exact (digitChar_spec (h8 d hd)).1
    show fracDotStar ('.' :: n.frac.map digitChar) = _
    rw [fracDotStar]
    rw [takeWhile_eq_self_of_all _ hall, dropWhile_eq_nil_of_all _ hall]

/-- `scanWith` of the empty text. -/
lemma scanWith_nil (m : List Char → Option (List Char × List Char)) :
    ∀ f, scanWith m f [] = [] := by
  intro f
  cases f <;> rfl

/-- When the matcher consumes the whole text at the first position, the scan
yields exactly that token. -/
lemma scanWith_single {m : List Char → Option (List Char × List Char)}
    {l t : List Char} (hm : m l = some (t, [])) (hne : l ≠ []) :
    scanWith m l.length l = [t] := by
  cases l with
  | nil => exact absurd rfl hne
  | cons a cs =>
      show scanWith m (cs.length + 1) (a :: cs) = [t]
      rw [scanWith, hm]
      show t :: scanWith m cs.length [] = [t]
      rw [scanWith_nil]

/-- `stripOptChar` does not consume a failing head. -/
lemma stripOptChar_neg {p : Char → Bool} {c : Char} {cs : List Char} (h : p c = false) :
    stripOptChar p (c :: cs) = ([], c :: cs) := by
  simp [stripOptChar, h]

/-- `stripOptChar` consumes a passing head. -/
lemma stripOptChar_pos {p : Char → Bool} {c : Char} {cs : List Char} (h : p c = true) :
    stripOptChar p (c :: cs) = ([c], cs) := by
  simp [stripOptChar, h]

/-- The rendered numeral splits at the period under any class that accepts
the whole integral part but rejects the period. -/
lemma takeWhile_dropWhile_renderNumeral {p : Char → Bool} (n : ThousandsNumeral)
    (hI : ∀ c ∈ renderInt n, p c = true) (hdot : p '.' = false) :
    (renderNumeral n).takeWhile p = renderInt n ∧
      (renderNumeral n).dropWhile p = renderFrac n := by
  unfold renderNumeral
  constructor
  · rw [takeWhile_append_of_all _ _ hI]
    have hF : (renderFrac n).takeWhile p = [] := by
      unfold renderFrac
      by_cases he : n.frac.isEmpty
      · rw [if_pos he]
        rfl
      · rw [if_neg he, List.takeWhile_cons, hdot]
        simp
    rw [hF, List.append_nil]
  · rw [dropWhile_append_of_all _ _ hI]
    unfold renderFrac
    by_cases he : n.frac.isEmpty
    · rw [if_pos he]
      rfl
    · rw [if_neg he, List.dropWhile_cons, hdot]
      simp

/-- The rendered numeral is a digit followed by the rest. -/
lemma renderNumeral_head {n : ThousandsNumeral} {d0 : ℕ} {ds : List ℕ}
    (hds : n.lead = d0 :: ds) :
    renderNumeral n = digitChar d0 ::
      (ds.map digitChar ++
        (n.groups.map (fun g => ',' :: (groupDigits g).map digitChar)).flatten ++
        renderFrac n) := by
  unfold renderNumeral renderInt
  rw [hds]
  simp

/-- The rendered integral part is nonempty. -/
lemma renderInt_ne_nil {n : ThousandsNumeral} (h1 : n.lead ≠ []) :
    renderInt n ≠ [] := by
  unfold renderInt
  rcases List.exists_cons_of_ne_nil h1 with ⟨d0, ds, hds⟩
  rw [hds]
  simp

/-- The dashboard pattern matches a rendered numeral whole. -/
lemma dashMatch1_renderNumeral (n : ThousandsNumeral) (h1 : n.lead ≠ [])
    (h4 : ∀ d ∈ n.lead, d < 10)
    (h6 : ∀ g ∈ n.groups, g.1 < 10 ∧ g.2.1 < 10 ∧ g.2.2 < 10)
    (h7 : n.frac.length ≤ 2) (h8 : ∀ d ∈ n.frac, d < 10) :
    dashMatch1 (renderNumeral n) = some (renderNumeral n, []) := by
  rcases List.exists_cons_of_ne_nil h1 with ⟨d0, ds, hds⟩
  have hd0 : d0 < 10 := h4 d0 (hds ▸ List.mem_cons_self d0 ds)
  have hcdig : (digitChar d0).isDigit = true := (digitChar_spec hd0).1
  have hclass : ∀ c ∈ renderInt n, dashClass c = true := by
    intro c hc
    rcases renderInt_mem h4 h6 c hc with h' | rfl
    · exact dashClass_of_isDigit h'
    · decide
  have hsplit := takeWhile_dropWhile_renderNumeral n hclass (by decide)
  have hne : ¬(digitChar d0 = '₹') := @isDigit_ne (digitChar d0) '₹' hcdig (by decide)
  have e1 : stripOptChar (fun c => c = '₹') (renderNumeral n) = ([], renderNumeral n) := by
    rw [renderNumeral_head hds]
    exact stripOptChar_neg (by simp [hne])
  have e2 : stripOptChar isPySpace (renderNumeral n) = ([], renderNumeral n) := by
    rw [renderNumeral_head hds]
    exact stripOptChar_neg (not_space_of_isDigit hcdig)
  have e6 : (renderInt n).isEmpty = false := by
    simpa using renderInt_ne_nil h1
  unfold dashMatch1
  rw [e1]
  dsimp only
  rw [e2]
  dsimp only
  rw [hsplit.1, hsplit.2]
  rw [if_neg (by simp [e6])]
  rw [fracUpTo2_renderFrac h7 h8]
  simp [renderNumeral]

/-- The dashboard pattern matches a rupee-prefixed rendered numeral whole. -/
lemma dashMatch1_rupee_renderNumeral (n : ThousandsNumeral) (h1 : n.lead ≠ [])
    (h4 : ∀ d ∈ n.lead, d < 10)
    (h6 : ∀ g ∈ n.groups, g.1 < 10 ∧ g.2.1 < 10 ∧ g.2.2 < 10)
    (h7 : n.frac.length ≤ 2) (h8 : ∀ d ∈ n.frac, d < 10) :
    dashMatch1 ('₹' :: ' ' :: renderNumeral n) =
      some ('₹' :: ' ' :: renderNumeral n, []) := by
  have hclass : ∀ c ∈ renderInt n, dashClass c = true := by
    intro c hc
    rcases renderInt_mem h4 h6 c hc with h' | rfl
    · exact dashClass_of_isDigit h'
    · decide
  have hsplit := takeWhile_dropWhile_renderNumeral n hclass (by decide)
  have e6 : (renderInt n).isEmpty = false := by
    simpa using renderInt_ne_nil h1
  unfold dashMatch1
  rw [stripOptChar_pos (by simp)]
  dsimp only
  rw [stripOptChar_pos (by decide)]
  dsimp only
  rw [hsplit.1, hsplit.2]
  rw [if_neg (by simp [e6])]
  rw [fracUpTo2_renderFrac h7 h8]
  simp [renderNumeral]

set_option maxRecDepth 2000 in
/-- The worker pattern matches a rupee-prefixed rendered numeral, capturing
the numeral. -/
lemma workerMatch_rupee_renderNumeral (n : ThousandsNumeral) (h1 : n.lead ≠ [])
    (h4 : ∀ d ∈ n.lead, d < 10)
    (h6 : ∀ g ∈ n.groups, g.1 < 10 ∧ g.2.1 < 10 ∧ g.2.2 < 10)
    (h8 : ∀ d ∈ n.frac, d < 10) :
    workerMatch ('₹' :: ' ' :: renderNumeral n) = some (renderNumeral n, []) := by
  have hclass : ∀ c ∈ renderInt n, digitComma c = true := by
    intro c hc
    rcases renderInt_mem h4 h6 c hc with h' | rfl
    · exact digitComma_of_isDigit h'
    · decide
  have hsplit := takeWhile_dropWhile_renderNumeral n hclass (by decide)
  have e6 : (renderInt n).isEmpty = false := by
    simpa using renderInt_ne_nil h1
  show workerMatch ('₹' :: (' ' :: renderNumeral n)) = _
  rw [workerMatch]
  rw [if_pos rfl]
  rw [stripOptChar_pos (by decide)]
  dsimp only
  rw [hsplit.1, hsplit.2]
  rw [if_neg (by simp [e6])]
  rw [fracDotStar_renderFrac h8]
  simp [renderNumeral]

/-- A class accepting all digits keeps a rendered digit list intact. -/
lemma filter_map_digitChar {p : Char → Bool}
    (hdig : ∀ c : Char, c.isDigit = true → p c = true)
    {l : List ℕ} (hl : ∀ d ∈ l, d < 10) : (l.map digitChar).filter p = l.map digitChar := by
  apply List.filter_eq_self.mpr
  intro c hc
  obtain ⟨d, hd, rfl⟩ := List.mem_map.mp hc
  exact hdig _ (digitChar_spec (hl d hd)).1

/-- Filtering the separator groups drops the commas and keeps the digits. -/
lemma filter_groups {p : Char → Bool} (hp : p ',' = false)
    (hdig : ∀ c : Char, c.isDigit = true → p c = true) :
    ∀ gs : List (ℕ × ℕ × ℕ), (∀ g ∈ gs, g.1 < 10 ∧ g.2.1 < 10 ∧ g.2.2 < 10) →
      ((gs.map (fun g => ',' :: (groupDigits g).map digitChar)).flatten).filter p =
        ((gs.map groupDigits).flatten).map digitChar := by
  intro gs
  induction gs with
  | nil => intro _; rfl
  | cons g gs ih =>
      intro h
      have hg : ∀ d ∈ groupDigits g, d < 10 := by
        intro d hd
        rcases h g (List.mem_cons_self g gs) with ⟨ha, hb, hc⟩
        simp [groupDigits] at hd
        rcases hd with rfl | rfl | rfl <;> assumption
      simp only [List.map_cons, List.flatten_cons, List.filter_append, List.filter_cons, hp]
      rw [filter_map_digitChar hdig hg, ih (fun g' hg' => h g' (List.mem_cons_of_mem g hg'))]
      simp [List.map_append]

/-- Cleaning a rendered numeral under any class that keeps digits and the
period but drops the comma yields the separator-free digits plus the
fraction. -/
lemma filter_renderNumeral {p : Char → Bool} (hp : p ',' = false) (hdot : p '.' = true)
    (hdig : ∀ c : Char, c.isDigit = true → p c = true) (n : ThousandsNumeral)
    (h4 : ∀ d ∈ n.lead, d < 10)
    (h6 : ∀ g ∈ n.groups, g.1 < 10 ∧ g.2.1 < 10 ∧ g.2.2 < 10)
    (h8 : ∀ d ∈ n.frac, d < 10) :
    (renderNumeral n).filter p = (intDigits n).map digitChar ++ renderFrac n := by
  unfold renderNumeral renderInt intDigits
  rw [List.filter_append, List.filter_append]
  rw [filter_map_digitChar hdig h4, filter_groups hp hdig n.groups h6]
  have hF : (renderFrac n).filter p = renderFrac n := by
    unfold renderFrac
    by_cases he : n.frac.isEmpty
    · rw [if_pos he]
      rfl
    · rw [if_neg he, List.filter_cons, hdot]
      rw [filter_map_digitChar hdig h8]
      simp
  rw [hF, List.map_append]

/-- The digits of the integral part are all below ten. -/
lemma intDigits_lt {n : ThousandsNumeral} (h4 : ∀ d ∈ n.lead, d < 10)
    (h6 : ∀ g ∈ n.groups, g.1 < 10 ∧ g.2.1 < 10 ∧ g.2.2 < 10) :
    ∀ d ∈ intDigits n, d < 10 := by
  intro d hd
  unfold intDigits at hd
  rcases List.mem_append.mp hd with h | h
  · exact h4 d h
  · rcases List.mem_flatten.mp h with ⟨blk, hblk, hdblk⟩
    obtain ⟨g, hg, rfl⟩ := List.mem_map.mp hblk
    rcases h6 g hg with ⟨ha, hb, hc⟩
    simp [groupDigits] at hdblk
    rcases hdblk with rfl | rfl | rfl <;> assumption

/-- Digit-character folding agrees with digit folding, from any
accumulator. -/
lemma foldl_digitChar_eq : ∀ (l : List ℕ) (a : ℕ), (∀ d ∈ l, d < 10) →
    l.foldl (fun a d => 10 * a + digitVal (digitChar d)) a =
      l.foldl (fun a d => 10 * a + d) a := by
  intro l
  induction l with
  | nil => intro a _; rfl
  | cons d ds ih =>
      intro a h
      simp only [List.foldl_cons]
      rw [(digitChar_spec (h d (List.mem_cons_self d ds))).2]
      exact ih _ (fun d' hd' => h d' (List.mem_cons_of_mem d hd'))

/-- Reading mapped digit characters recovers the digit-list value. -/
lemma digitsValN_map {l : List ℕ} (hl : ∀ d ∈ l, d < 10) :
    digitsValN (l.map digitChar) = natDigitsVal l := by
  unfold digitsValN natDigitsVal
  rw [List.foldl_map]
  exact foldl_digitChar_eq l 0 hl

/-- Folding digits from an accumulator shifts it by a power of ten. -/
lemma natDigitsVal_foldl : ∀ (l : List ℕ) (a : ℕ),
    l.foldl (fun a d => 10 * a + d) a = a * 10 ^ l.length + natDigitsVal l := by
  intro l
  induction l with
  | nil => intro a; simp [natDigitsVal]
  | cons d ds ih =>
      intro a
      have hd : natDigitsVal (d :: ds) = d * 10 ^ ds.length + natDigitsVal ds := by
        unfold natDigitsVal
        rw [List.foldl_cons]
        have := ih (10 * 0 + d)
        simpa using this
      rw [List.foldl_cons, ih (10 * a + d), hd, List.length_cons]
      ring

/-- Peeling the leading digit of a digit-list value. -/
lemma natDigitsVal_cons (d : ℕ) (l : List ℕ) :
    natDigitsVal (d :: l) = d * 10 ^ l.length + natDigitsVal l := by
  unfold natDigitsVal
  rw [List.foldl_cons]
  simpa using natDigitsVal_foldl l (10 * 0 + d)

/-- `pyFloat` reads a cleaned rendered numeral back to its decimal value. -/
lemma pyFloat_numeral (n : ThousandsNumeral) (h1 : n.lead ≠ [])
    (h4 : ∀ d ∈ n.lead, d < 10)
    (h6 : ∀ g ∈ n.groups, g.1 < 10 ∧ g.2.1 < 10 ∧ g.2.2 < 10)
    (h8 : ∀ d ∈ n.frac, d < 10) :
    pyFloat ((intDigits n).map digitChar ++ renderFrac n) = some (numeralValQ n) := by
  have hIdig : ∀ c ∈ (intDigits n).map digitChar, c.isDigit = true := by
    intro c hc
    obtain ⟨d, hd, rfl⟩ := List.mem_map.mp hc
    exact (digitChar_spec (intDigits_lt h4 h6 d hd)).1
  have hIne : (intDigits n).map digitChar ≠ [] := by
    unfold intDigits
    rcases List.exists_cons_of_ne_nil h1 with ⟨d0, ds, hds⟩
    rw [hds]
    simp
  have htw : ((intDigits n).map digitChar ++ renderFrac n).takeWhile Char.isDigit =
      (intDigits n).map digitChar := by
    rw [takeWhile_append_of_all _ _ hIdig]
    have : (renderFrac n).takeWhile Char.isDigit = [] := by
      unfold renderFrac
      by_cases he : n.frac.isEmpty
      · rw [if_pos he]
        rfl
      · rw [if_neg he, List.takeWhile_cons]
        simp
    rw [this, List.append_nil]
  have hdw : ((intDigits n).map digitChar ++ renderFrac n).dropWhile Char.isDigit =
      renderFrac n := by
    rw [dropWhile_append_of_all _ _ hIdig]
    unfold renderFrac
    by_cases he : n.frac.isEmpty
    · rw [if_pos he]
      rfl
    · rw [if_neg he, List.dropWhile_cons]
      simp
  unfold pyFloat
  rw [htw, hdw]
  unfold renderFrac
  by_cases he : n.frac.isEmpty
  · rw [if_pos he]
    dsimp only
    rw [if_neg (by simpa using hIne)]
    have hfrac : n.frac = [] := by simpa using he
    unfold numeralValQ
    simp only [digitsValQ]
    rw [digitsValN_map (intDigits_lt h4 h6), hfrac]
    simp [natDigitsVal]
  · rw [if_neg he]
    dsimp only
    have hfr : (n.frac.map digitChar).all Char.isDigit = true := by
      rw [List.all_eq_true]
      intro c hc
      obtain ⟨d, hd, rfl⟩ := List.mem_map.mp hc
      exact (digitChar_spec (h8 d hd)).1
    have hiem : (List.map digitChar (intDigits n)).isEmpty = false := by
      simpa using hIne
    rw [if_pos rfl]
    rw [if_pos (by rw [hfr, hiem]; rfl)]
    unfold numeralValQ fracValQ
    simp only [digitsValQ]
    rw [digitsValN_map (intDigits_lt h4 h6), digitsValN_map h8, List.length_map]

/-- A valid thousands-separated numeral denotes a value above the
plausibility threshold. -/
lemma numeralValQ_gt_10 (n : ThousandsNumeral) (h1 : n.lead ≠ [])
    (h3 : n.lead.headD 0 ≠ 0) (h5 : n.groups ≠ []) :
    10 < numeralValQ n := by
  rcases List.exists_cons_of_ne_nil h1 with ⟨d0, ds, hds⟩
  rcases List.exists_cons_of_ne_nil h5 with ⟨g, gs, hgs⟩
  have hd0 : 1 ≤ d0 := by
    rw [hds] at h3
    simpa [Nat.one_le_iff_ne_zero] using h3
  have hlen : 3 ≤ (ds ++ (n.groups.map groupDigits).flatten).length := by
    rw [hgs]
    simp [groupDigits]
    omega
  have hval : 1000 ≤ natDigitsVal (intDigits n) := by
    unfold intDigits
    rw [hds, List.cons_append, natDigitsVal_cons]
    calc (1000 : ℕ) = 1 * 10 ^ 3 := by norm_num
    _ ≤ d0 * 10 ^ (ds ++ (n.groups.map groupDigits).flatten).length := by
        exact Nat.mul_le_mul hd0 (Nat.pow_le_pow_right (by norm_num) hlen)
    _ ≤ _ := Nat.le_add_right _ _
  have hcast : (1000 : ℚ) ≤ (natDigitsVal (intDigits n) : ℚ) := by
    exact_mod_cast hval
  have hfrac : (0 : ℚ) ≤ (natDigitsVal n.frac : ℚ) / 10 ^ n.frac.length := by
    positivity
  unfold numeralValQ
  linarith

/-- A rendered numeral contains no angle bracket. -/
lemma renderNumeral_no_lt {n : ThousandsNumeral} (h4 : ∀ d ∈ n.lead, d < 10)
    (h6 : ∀ g ∈ n.groups, g.1 < 10 ∧ g.2.1 < 10 ∧ g.2.2 < 10)
    (h8 : ∀ d ∈ n.frac, d < 10) :
    ∀ c ∈ renderNumeral n, ¬(c = '<') := by
  intro c hc
  unfold renderNumeral at hc
  rcases List.mem_append.mp hc with h | h
  · rcases renderInt_mem h4 h6 c h with hd | rfl
    · exact @isDigit_ne c '<' hd (by decide)
    · decide
  · rcases renderFrac_mem h8 c h with hd | rfl
    · exact @isDigit_ne c '<' hd (by decide)
    · decide

/-- Neither does a rupee-prefixed rendered numeral. -/
lemma renderNumeral_rupee_no_lt {n : ThousandsNumeral} (h4 : ∀ d ∈ n.lead, d < 10)
    (h6 : ∀ g ∈ n.groups, g.1 < 10 ∧ g.2.1 < 10 ∧ g.2.2 < 10)
    (h8 : ∀ d ∈ n.frac, d < 10) :
    ∀ c ∈ '₹' :: ' ' :: renderNumeral n, ¬(c = '<') := by
  intro c hc
  rcases List.mem_cons.mp hc with rfl | hc
  · decide
  · rcases List.mem_cons.mp hc with rfl | hc
    · decide
    · exact renderNumeral_no_lt h4 h6 h8 c hc

/-- A rendered numeral is nonempty. -/
lemma renderNumeral_ne_nil {n : ThousandsNumeral} (h1 : n.lead ≠ []) :
    renderNumeral n ≠ [] := by
  unfold renderNumeral
  intro hcontra
  exact renderInt_ne_nil h1 (List.append_eq_nil.mp hcontra).1

/-- The cleaned rendered numeral under the dashboard's `[^\d.]` filter. -/
lemma cleanNumTok_renderNumeral (n : ThousandsNumeral) (h4 : ∀ d ∈ n.lead, d < 10)
    (h6 : ∀ g ∈ n.groups, g.1 < 10 ∧ g.2.1 < 10 ∧ g.2.2 < 10)
    (h8 : ∀ d ∈ n.frac, d < 10) :
    cleanNumTok (renderNumeral n) = (intDigits n).map digitChar ++ renderFrac n := by
  unfold cleanNumTok
  exact filter_renderNumeral (by decide) (by decide)
    (fun c h => by simp [h]) n h4 h6 h8

/-- The dashboard extractor reads a bare rendered numeral to its value. -/
lemma dashboard_extract_renderNumeral (n : ThousandsNumeral) (h1 : n.lead ≠ [])
    (h3 : n.lead.headD 0 ≠ 0) (h4 : ∀ d ∈ n.lead, d < 10) (h5 : n.groups ≠ [])
    (h6 : ∀ g ∈ n.groups, g.1 < 10 ∧ g.2.1 < 10 ∧ g.2.2 < 10)
    (h7 : n.frac.length ≤ 2) (h8 : ∀ d ∈ n.frac, d < 10) :
    dashboard_extract_price (renderNumeral n) = some (numeralValQ n) := by
  have hne := renderNumeral_ne_nil h1
  have hpre : dashboard_preprocess (renderNumeral n) = renderNumeral n := by
    unfold dashboard_preprocess
    rw [stripScriptStyle_id _ _ (renderNumeral_no_lt h4 h6 h8)]
    rw [stripTags_id _ _ (renderNumeral_no_lt h4 h6 h8)]
  unfold dashboard_extract_price
  rw [if_neg (by simpa using hne)]
  rw [hpre]
  unfold dashboard_matches
  rw [scanWith_single (dashMatch1_renderNumeral n h1 h4 h6 h7 h8) hne]
  rw [if_neg (by simp)]
  rw [dashboard_loop]
  rw [cleanNumTok_renderNumeral n h4 h6 h8]
  have hIne : (intDigits n).map digitChar ≠ [] := by
    unfold intDigits
    rcases List.exists_cons_of_ne_nil h1 with ⟨d0, ds, hds⟩
    rw [hds]
    simp
  rw [if_neg (by simp [hIne])]
  rw [pyFloat_numeral n h1 h4 h6 h8]
  dsimp only
  rw [if_pos (numeralValQ_gt_10 n h1 h3 h5)]

/-- The dashboard extractor reads a rupee-prefixed rendered numeral to its
value. -/
lemma dashboard_extract_rupee_renderNumeral (n : ThousandsNumeral) (h1 : n.lead ≠ [])
    (h3 : n.lead.headD 0 ≠ 0) (h4 : ∀ d ∈ n.lead, d < 10) (h5 : n.groups ≠ [])
    (h6 : ∀ g ∈ n.groups, g.1 < 10 ∧ g.2.1 < 10 ∧ g.2.2 < 10)
    (h7 : n.frac.length ≤ 2) (h8 : ∀ d ∈ n.frac, d < 10) :
    dashboard_extract_price ('₹' :: ' ' :: renderNumeral n) = some (numeralValQ n) := by
  have hpre : dashboard_preprocess ('₹' :: ' ' :: renderNumeral n) =
      '₹' :: ' ' :: renderNumeral n := by
    unfold dashboard_preprocess
    rw [stripScriptStyle_id _ _ (renderNumeral_rupee_no_lt h4 h6 h8)]
    rw [stripTags_id _ _ (renderNumeral_rupee_no_lt h4 h6 h8)]
  unfold dashboard_extract_price
  rw [if_neg (by simp)]
  rw [hpre]
  unfold dashboard_matches
  rw [scanWith_single (dashMatch1_rupee_renderNumeral n h1 h4 h6 h7 h8) (by simp)]
  rw [if_neg (by simp)]
  rw [dashboard_loop]
  have hclean : cleanNumTok ('₹' :: ' ' :: renderNumeral n) =
      (intDigits n).map digitChar ++ renderFrac n := by
    unfold cleanNumTok
    rw [List.filter_cons, List.filter_cons]
    norm_num
    exact cleanNumTok_renderNumeral n h4 h6 h8
  rw [hclean]
  have hIne : (intDigits n).map digitChar ≠ [] := by
    unfold intDigits
    rcases List.exists_cons_of_ne_nil h1 with ⟨d0, ds, hds⟩
    rw [hds]
    simp
  rw [if_neg (by simp [hIne])]
  rw [pyFloat_numeral n h1 h4 h6 h8]
  dsimp only
  rw [if_pos (numeralValQ_gt_10 n h1 h3 h5)]

/-- The worker extractor reads a rupee-prefixed rendered numeral to its
value. -/
lemma worker_extract_rupee_renderNumeral (n : ThousandsNumeral) (h1 : n.lead ≠ [])
    (h4 : ∀ d ∈ n.lead, d < 10)
    (h6 : ∀ g ∈ n.groups, g.1 < 10 ∧ g.2.1 < 10 ∧ g.2.2 < 10)
    (h8 : ∀ d ∈ n.frac, d < 10) :
    worker_extract_price ('₹' :: ' ' :: renderNumeral n) = some (numeralValQ n) := by
  unfold worker_extract_price
  rw [stripTags_id _ _ (renderNumeral_rupee_no_lt h4 h6 h8)]
  dsimp only
  rw [scanWith_single (workerMatch_rupee_renderNumeral n h1 h4 h6 h8) (by simp)]
  dsimp only
  have hfilter : (renderNumeral n).filter (fun c => !(c = ',')) =
      (intDigits n).map digitChar ++ renderFrac n := by
    exact filter_renderNumeral (by decide) (by decide)
      (fun c h => by simp [@isDigit_ne c ',' h (by decide)]) n h4 h6 h8
  rw [hfilter]
  exact pyFloat_numeral n h1 h4 h6 h8

/-- Claim C7 (amended): for every valid thousands-separated numeral —
nonempty lead group of at most three digits with nonzero first digit, at
least one three-digit separator group, an optional fraction of at most two
digits — the dashboard extractor strips the separators and returns the
correct decimal value, with or without a `₹ ` prefix; the worker extractor
does the same but only when the `₹` sign precedes the numeral (on the bare
numeral it finds no price; see the counterexample). -/
theorem c7_thousands_numeral (n : ThousandsNumeral) (h1 : n.lead ≠ [])
    (h2 : n.lead.length ≤ 3) (h3 : n.lead.headD 0 ≠ 0)
    (h4 : ∀ d ∈ n.lead, d < 10) (h5 : n.groups ≠ [])
    (h6 : ∀ g ∈ n.groups, g.1 < 10 ∧ g.2.1 < 10 ∧ g.2.2 < 10)
    (h7 : n.frac.length ≤ 2) (h8 : ∀ d ∈ n.frac, d < 10) :
    dashboard_extract_price (renderNumeral n) = some (numeralValQ n) ∧
      dashboard_extract_price ('₹' :: ' ' :: renderNumeral n) = some (numeralValQ n) ∧
      worker_extract_price ('₹' :: ' ' :: renderNumeral n) = some (numeralValQ n) :=
  ⟨dashboard_extract_renderNumeral n h1 h3 h4 h5 h6 h7 h8,
    dashboard_extract_rupee_renderNumeral n h1 h3 h4 h5 h6 h7 h8,
    worker_extract_rupee_renderNumeral n h1 h4 h6 h8⟩

/-- Claim C7, witness: the numeral `1,234` (lead `1`, group `234`, no
fraction) evaluates through all three readings. -/
theorem c7_witness :
    dashboard_extract_price ("1,234".toList) = some 1234 ∧
      dashboard_extract_price ("₹ 1,234".toList) = some 1234 ∧
      worker_extract_price ("₹ 1,234".toList) = some 1234 := by
  have h := c7_thousands_numeral ⟨[1], [(2, 3, 4)], []⟩ (by decide) (by decide) (by decide)
    (by decide) (by decide) (by decide) (by decide) (by decide)
  have hr : renderNumeral ⟨[1], [(2, 3, 4)], []⟩ = "1,234".toList := by decide
  have hr2 : ("₹ 1,234".toList : List Char) =
      '₹' :: ' ' :: renderNumeral ⟨[1], [(2, 3, 4)], []⟩ := by decide
  have hv : numeralValQ ⟨[1], [(2, 3, 4)], []⟩ = 1234 := by
    have hnat : natDigitsVal (intDigits ⟨[1], [(2, 3, 4)], []⟩) = 1234 := by decide
    have hfr : natDigitsVal ([] : List ℕ) = 0 := rfl
    unfold numeralValQ
    rw [hnat]
    norm_num [hfr]
  rw [hr, hv] at h
  rw [hr2]
  exact h

/-- Claim C7, counterexample: the worker extractor requires the rupee sign,
so the claim's example `"1,234"` yields no price there, although the
dashboard extractor returns the claimed `1234`. -/
theorem c7_counterexample :
    worker_extract_price ("1,234".toList) = none ∧
      dashboard_extract_price ("1,234".toList) = some 1234 := by
  exact ⟨by decide, by decide⟩

/-! ## The extractors on the full `bytes/string` argument domain

The spec's §4.1 contract is `extract(content: bytes/string)`, so a caller
may pass either Python type.  The `List Char` extractors above model the
`str` case; the wrappers below model the call on an arbitrary argument,
including the uncaught exception a `bytes` argument provokes. -/

/-- A Python argument to an extractor: a `str` or a `bytes` value (the
latter as its byte values). -/
inductive PyContent where
  | ofStr (s : List Char)
  | ofBytes (b : List ℕ)
deriving DecidableEq, Repr

/-- Outcome of a Python call: a returned value, or an uncaught exception
carrying its class name. -/
inductive PyResult (α : Type) where
  | ok (v : α)
  | raised (exc : List Char)
deriving DecidableEq, Repr

/-- `app/dashboard.py` `extract_price` on an arbitrary `bytes/string`
argument.  An empty argument of either type is falsy, so line 138 returns
`None` before any regex runs; a nonempty `str` runs the exception-free
extraction modelled by `dashboard_extract_price`; a nonempty `bytes`
reaches `re.sub(r"(?is)<(script|style).*?>.*?</\1>", " ", html_text)` at
line 140, where applying a `str` pattern to a bytes-like object raises
`TypeError`, which nothing in the function catches (the only `try` is
around the later `float` call). -/
def dashboard_extract_price_py : PyContent → PyResult (Option ℚ)
  | .ofStr s => .ok (dashboard_extract_price s)
  | .ofBytes b => if b.isEmpty then .ok none else .raised ("TypeError".toList)

/-- `tracker_worker.py` `extract_price` on an arbitrary `bytes/string`
argument.  It has no falsy short-circuit, so any `bytes` argument — empty
included — hits `re.sub("<[^>]+>", " ", html)` at line 50 first and raises
`TypeError` uncaught (its `try` guards only the `float` call). -/
def worker_extract_price_py : PyContent → PyResult (Option ℚ)
  | .ofStr s => .ok (worker_extract_price s)
  | .ofBytes _ => .raised ("TypeError".toList)

/-- Claim C8, counterexample: on a nonempty `bytes` argument — an input the
claim explicitly includes — both cited extractors raise `TypeError` (a
`str` regex pattern applied to a bytes-like object) instead of returning
the "no price found" result.  The byte value `120` is ASCII `x`. -/
theorem c8_counterexample :
    dashboard_extract_price_py (.ofBytes [120]) = .raised ("TypeError".toList) ∧
      worker_extract_price_py (.ofBytes [120]) = .raised ("TypeError".toList) ∧
      ∀ v : Option ℚ, dashboard_extract_price_py (.ofBytes [120]) ≠ .ok v := by
  refine ⟨rfl, rfl, fun v h => ?_⟩
  exact PyResult.noConfusion h
